import Mathlib

/-!
Verification of the column-arithmetic tutor core (good-math).

Shallow embedding of:
* `src/utils/mathGenerator.ts` — digits, padding, problem/quiz generation;
* `src/utils/speech.ts` — speech manager promise semantics and narration text;
* `src/components/animations/Celebration.tsx` (`VerticalCalculation`) —
  the column decomposition (`columns` useMemo), `speakAndWait`, and the
  `runAnimation` solve sequencer.

Numbers are `Nat`/`Int`/`ℚ` (JS numbers at the sizes involved are exact);
the sequencer's asynchronous run is modelled as the sequence of state
mutations and await points it performs, and promise settlement as an
explicit result type (`resolved`/`rejected`/`pending`).
-/

/-- Loop of `getDigits` from `mathGenerator.ts`: repeatedly take `n % 10`
and divide by 10 while `n > 0`.  The first argument is structural fuel
bounding the number of iterations (`n/10 < n`, so fuel `n` always
suffices and the fuel-exhausted branch is unreachable). -/
def getDigitsGo : Nat → Nat → List Nat
  | _, 0 => []
  | 0, _ + 1 => []
  | fuel + 1, n + 1 => (n + 1) % 10 :: getDigitsGo fuel ((n + 1) / 10)

/-- Embedding of `getDigits` from `mathGenerator.ts`: digits of a number, ones first;
`getDigits 0 = [0]`. -/
def getDigits (num : Nat) : List Nat :=
  if num = 0 then [0] else getDigitsGo num num

/-- Embedding of `padDigits` from `mathGenerator.ts`: pad a digit array with `null`
(here `none`) up to the requested length. -/
def padDigits (digits : List Nat) (length : Nat) : List (Option Nat) :=
  digits.map some ++ List.replicate (length - digits.length) none

/-- The TS expression `padded[i] ?? 0`: a missing or `null` entry reads
as 0 in the arithmetic. -/
def digitAt (padded : List (Option Nat)) (i : Nat) : Nat :=
  (padded[i]?.join).getD 0

/-- Value of a digit list, ones digit first (the reconstruction order the
spec calls low-to-high). -/
def fromDigits : List Nat → Nat
  | [] => 0
  | d :: rest => d + 10 * fromDigits rest

/-- Value of a list of `Int` result digits, ones first. -/
def fromIntDigits : List Int → Int
  | [] => 0
  | d :: rest => d + 10 * fromIntDigits rest

theorem fromDigits_getDigitsGo (fuel : Nat) :
    ∀ n, n ≤ fuel → fromDigits (getDigitsGo fuel n) = n := by
  induction fuel with
  | zero =>
      intro n hn
      interval_cases n
      rfl
  | succ f ih =>
      intro n hn
      cases n with
      | zero => rfl
      | succ m =>
          rw [getDigitsGo]
          simp only [fromDigits]
          rw [ih ((m + 1) / 10) (by omega)]
          omega

theorem fromDigits_getDigits (n : Nat) : fromDigits (getDigits n) = n := by
  unfold getDigits
  split
  · simp [fromDigits]; omega
  · exact fromDigits_getDigitsGo n n le_rfl

theorem getDigitsGo_le_nine (fuel : Nat) :
    ∀ n, ∀ d ∈ getDigitsGo fuel n, d ≤ 9 := by
  induction fuel with
  | zero =>
      intro n d hd
      cases n <;> simp [getDigitsGo] at hd
  | succ f ih =>
      intro n d hd
      cases n with
      | zero => simp [getDigitsGo] at hd
      | succ m =>
          rw [getDigitsGo] at hd
          rcases List.mem_cons.mp hd with h | h
          · omega
          · exact ih _ d h

theorem getDigits_le_nine (n : Nat) : ∀ d ∈ getDigits n, d ≤ 9 := by
  unfold getDigits
  split
  · simp
  · exact getDigitsGo_le_nine n n

theorem lt_ten_pow_length_getDigitsGo (fuel : Nat) :
    ∀ n, n ≤ fuel → n < 10 ^ (getDigitsGo fuel n).length := by
  induction fuel with
  | zero =>
      intro n hn
      interval_cases n
      simp [getDigitsGo]
  | succ f ih =>
      intro n hn
      cases n with
      | zero => simp [getDigitsGo]
      | succ m =>
          rw [getDigitsGo]
          simp only [List.length_cons, pow_succ]
          have := ih ((m + 1) / 10) (by omega)
          omega

theorem lt_ten_pow_length_getDigits (n : Nat) :
    n < 10 ^ (getDigits n).length := by
  unfold getDigits
  split
  · rename_i h; subst h; simp
  · exact lt_ten_pow_length_getDigitsGo n n le_rfl

theorem getDigits_length_pos (n : Nat) : 0 < (getDigits n).length := by
  unfold getDigits
  split
  · simp
  · rename_i h
    cases n with
    | zero => exact absurd rfl h
    | succ m => rw [getDigitsGo]; simp

theorem digitAt_padDigits (ds : List Nat) (m i : Nat) :
    digitAt (padDigits ds m) i = ds.getD i 0 := by
  unfold digitAt padDigits
  rcases Nat.lt_or_ge i ds.length with h | h
  · rw [List.getElem?_append_left (by simpa using h)]
    simp [List.getElem?_map, List.getD, List.getElem?_eq_getElem (by simpa using h)]
  · rw [List.getElem?_append_right (by simpa using h)]
    rcases Nat.lt_or_ge (i - ds.length) (m - ds.length) with h2 | h2
    · simp [List.getElem?_replicate, h2, List.getD, List.getElem?_eq_none (by simpa using h)]
    · simp [List.getElem?_replicate, Nat.not_lt.mpr h2, List.getD,
        List.getElem?_eq_none (by simpa using h)]

theorem digitAt_padDigits_le_nine (n m i : Nat) :
    digitAt (padDigits (getDigits n) m) i ≤ 9 := by
  rw [digitAt_padDigits]
  rcases Nat.lt_or_ge i (getDigits n).length with h | h
  · have := getDigits_le_nine n ((getDigits n).getD i 0)
    exact this (by simp [List.getD, List.getElem?_eq_getElem h])
  · simp [List.getD, List.getElem?_eq_none h]

/-- Partial value of padded digits: `∑ k < n, 10^k * digitAt p (i+k)`,
written recursively (contribution of positions `i, i+1, …, i+n-1`, scaled
relative to position `i`). -/
def optVal (p : List (Option Nat)) : Nat → Nat → Nat
  | _, 0 => 0
  | i, n + 1 => digitAt p i + 10 * optVal p (i + 1) n

theorem optVal_padDigits (ds : List Nat) (m : Nat) :
    ∀ n i, optVal (padDigits ds m) i n = optVal (padDigits ds 0) i n := by
  intro n
  induction n with
  | zero => intro i; rfl
  | succ k ih => intro i; simp [optVal, digitAt_padDigits, ih]

theorem optVal_drop (ds : List Nat) (m : Nat) :
    ∀ n i, optVal (padDigits ds m) (i + 1) n = optVal (padDigits (ds.drop 1) m) i n := by
  intro n
  induction n with
  | zero => intro i; rfl
  | succ k ih =>
      intro i
      simp only [optVal, digitAt_padDigits, ih]
      congr 1
      cases ds with
      | nil => simp
      | cons d t => simp [List.getD]

theorem optVal_eq_fromDigits (ds : List Nat) (m n : Nat) (h : ds.length ≤ n) :
    optVal (padDigits ds m) 0 n = fromDigits ds := by
  induction n generalizing ds with
  | zero =>
      have : ds = [] := List.eq_nil_of_length_eq_zero (Nat.le_zero.mp h)
      subst this
      rfl
  | succ k ih =>
      cases ds with
      | nil =>
          simp only [optVal, digitAt_padDigits, fromDigits]
          rw [optVal_drop]
          simp [ih [] (by simp), fromDigits, List.getD]
      | cons d t =>
          simp only [optVal, digitAt_padDigits, fromDigits]
          rw [optVal_drop]
          simp only [List.drop_one, List.tail_cons]
          rw [ih t (by simpa using Nat.succ_le_succ_iff.mp h)]
          simp [List.getD]

/-- Embedding of `Operation` from `types.ts`. -/
inductive Operation where
  | addition
  | subtraction
deriving DecidableEq, Inhabited

/-- Embedding of `MathProblem` from `types.ts`. The `id` is an opaque token (the TS
code builds it from `Date.now()` and `Math.random()`); its content is
never inspected by the core. -/
structure MathProblem where
  id : String
  operand1 : Nat
  operand2 : Nat
  operation : Operation
  answer : Nat
  requiresCarry : Bool
deriving DecidableEq

/-- Embedding of `PLACE_NAMES` from `Celebration.tsx`. -/
def PLACE_NAMES : List String := ["ones", "tens", "hundreds", "thousands"]

/-- The TS lookup with fallback label, `PLACE_NAMES[i]` or else the generic place label. -/
def placeNameFor (i : Nat) : String :=
  (PLACE_NAMES[i]?).getD ("place " ++ toString i)

/-- Embedding of `ColumnCalc` from `Celebration.tsx` (addition column record). -/
structure ColumnCalc where
  placeIndex : Nat
  placeName : String
  op1Digit : Nat
  op2Digit : Nat
  carryIn : Nat
  sum : Nat
  resultDigit : Nat
  carryOut : Nat
deriving DecidableEq

/-- Embedding of `SubtractionColumnCalc` from `Celebration.tsx`. `borrowedValue` and
`resultDigit` are `Int` because the TS expression
`(paddedOp1[i] ?? 0) - borrowIn` can be `-1` before the borrow fires. -/
structure SubtractionColumnCalc where
  placeIndex : Nat
  placeName : String
  op1Digit : Nat
  op2Digit : Nat
  borrowIn : Nat
  needsBorrow : Bool
  borrowedValue : Int
  resultDigit : Int
deriving DecidableEq

/-- Addition pass of the `columns` useMemo in `Celebration.tsx`: the loop
`for i in 0..max-1` with the running `carryIn`.  The pair's second
component is the value of the `carryIn` variable after the loop (the
carry out of the last column). -/
def additionColsGo (p1 p2 : List (Option Nat)) : Nat → Nat → Nat → List ColumnCalc × Nat
  | 0, _, carryIn => ([], carryIn)
  | n + 1, i, carryIn =>
    let d1 := digitAt p1 i
    let d2 := digitAt p2 i
    let sum := d1 + d2 + carryIn
    let resultDigit := sum % 10
    let carryOut := sum / 10
    let rest := additionColsGo p1 p2 n (i + 1) carryOut
    ({ placeIndex := i
       placeName := placeNameFor i
       op1Digit := d1
       op2Digit := d2
       carryIn := carryIn
       sum := sum
       resultDigit := resultDigit
       carryOut := carryOut } :: rest.1, rest.2)

/-- Subtraction pass of the `columns` useMemo: the loop with the running
`borrowIn`; second component is the final `borrowIn` (borrow out of the
last column). -/
def subtractionColsGo (p1 p2 : List (Option Nat)) : Nat → Nat → Nat → List SubtractionColumnCalc × Nat
  | 0, _, borrowIn => ([], borrowIn)
  | n + 1, i, borrowIn =>
    let d1 : Int := (digitAt p1 i : Int) - borrowIn
    let d2 := digitAt p2 i
    let needsBorrow : Bool := d1 < (d2 : Int)
    let borrowedValue : Int := if needsBorrow then d1 + 10 else d1
    let resultDigit : Int := borrowedValue - d2
    let rest := subtractionColsGo p1 p2 n (i + 1) (if needsBorrow then 1 else 0)
    ({ placeIndex := i
       placeName := placeNameFor i
       op1Digit := digitAt p1 i
       op2Digit := d2
       borrowIn := borrowIn
       needsBorrow := needsBorrow
       borrowedValue := borrowedValue
       resultDigit := resultDigit } :: rest.1, rest.2)

/-- The width `max = Math.max(op1.length, op2.length, result.length)` from the
`columns` useMemo. -/
def maxDigits (p : MathProblem) : Nat :=
  max (getDigits p.operand1).length
    (max (getDigits p.operand2).length (getDigits p.answer).length)

/-- Padded ones-first digits of `operand1`. -/
def paddedOp1 (p : MathProblem) : List (Option Nat) :=
  padDigits (getDigits p.operand1) (maxDigits p)

/-- Padded ones-first digits of `operand2`. -/
def paddedOp2 (p : MathProblem) : List (Option Nat) :=
  padDigits (getDigits p.operand2) (maxDigits p)

/-- The addition branch of the decomposition (`columns` for an addition
problem), ones column first. -/
def additionColumns (p : MathProblem) : List ColumnCalc :=
  (additionColsGo (paddedOp1 p) (paddedOp2 p) (maxDigits p) 0 0).1

/-- The final value of the addition loop's `carryIn` variable. -/
def additionFinalCarry (p : MathProblem) : Nat :=
  (additionColsGo (paddedOp1 p) (paddedOp2 p) (maxDigits p) 0 0).2

/-- The subtraction branch of the decomposition, ones column first. -/
def subtractionColumns (p : MathProblem) : List SubtractionColumnCalc :=
  (subtractionColsGo (paddedOp1 p) (paddedOp2 p) (maxDigits p) 0 0).1

/-- The final value of the subtraction loop's `borrowIn` variable. -/
def subtractionFinalBorrow (p : MathProblem) : Nat :=
  (subtractionColsGo (paddedOp1 p) (paddedOp2 p) (maxDigits p) 0 0).2

/-- The carry chain of the addition columns: the first column's `carryIn`
is the given start value and each column's `carryOut` feeds the next
column's `carryIn`. -/
def addChainFrom (c : Nat) : List ColumnCalc → Bool
  | [] => true
  | col :: rest => col.carryIn == c && addChainFrom col.carryOut rest

/-- The borrow chain of the subtraction columns. -/
def subChainFrom (b : Nat) : List SubtractionColumnCalc → Bool
  | [] => true
  | col :: rest =>
      col.borrowIn == b && subChainFrom (if col.needsBorrow then 1 else 0) rest

theorem additionColsGo_length (p1 p2 : List (Option Nat)) :
    ∀ n i c, ((additionColsGo p1 p2 n i c).1).length = n := by
  intro n
  induction n with
  | zero => intro i c; rfl
  | succ k ih => intro i c; simp [additionColsGo, ih]

theorem additionColsGo_chain (p1 p2 : List (Option Nat)) :
    ∀ n i c, addChainFrom c (additionColsGo p1 p2 n i c).1 = true := by
  intro n
  induction n with
  | zero => intro i c; rfl
  | succ k ih => intro i c; simp [additionColsGo, addChainFrom, ih]

theorem additionColsGo_column_eq (p1 p2 : List (Option Nat)) :
    ∀ n i c, ∀ col ∈ (additionColsGo p1 p2 n i c).1,
      col.op1Digit + col.op2Digit + col.carryIn = 10 * col.carryOut + col.resultDigit ∧
      col.resultDigit ≤ 9 := by
  intro n
  induction n with
  | zero => intro i c col h; simp [additionColsGo] at h
  | succ k ih =>
      intro i c col h
      simp only [additionColsGo, List.mem_cons] at h
      rcases h with h | h
      · subst h
        refine ⟨?_, ?_⟩
        · simp only []
          omega
        · simp only []
          omega
      · exact ih (i + 1) _ col h


theorem additionColsGo_value (p1 p2 : List (Option Nat)) :
    ∀ n i c,
      fromDigits (((additionColsGo p1 p2 n i c).1).map ColumnCalc.resultDigit)
        + 10 ^ n * (additionColsGo p1 p2 n i c).2
      = optVal p1 i n + optVal p2 i n + c := by
  intro n
  induction n with
  | zero => intro i c; simp [additionColsGo, optVal, fromDigits]
  | succ k ih =>
      intro i c
      have h := ih (i + 1) ((digitAt p1 i + digitAt p2 i + c) / 10)
      simp only [additionColsGo, List.map_cons, fromDigits, optVal, pow_succ]
      have hmul : 10 ^ k * 10 * (additionColsGo p1 p2 k (i + 1) ((digitAt p1 i + digitAt p2 i + c) / 10)).2
          = 10 * (10 ^ k * (additionColsGo p1 p2 k (i + 1) ((digitAt p1 i + digitAt p2 i + c) / 10)).2) := by
        ring
      omega

theorem additionColsGo_last_carry (p1 p2 : List (Option Nat)) :
    ∀ n i c, 0 < n →
      (((additionColsGo p1 p2 n i c).1).getLast?).map ColumnCalc.carryOut
        = some (additionColsGo p1 p2 n i c).2 := by
  intro n
  induction n with
  | zero => intro i c h; omega
  | succ k ih =>
      intro i c _
      cases k with
      | zero => simp [additionColsGo]
      | succ m =>
          have h := ih (i + 1) ((digitAt p1 i + digitAt p2 i + c) / 10) (Nat.succ_pos m)
          simp only [additionColsGo] at h ⊢
          rw [List.getLast?_cons_cons]
          exact h

theorem subtractionColsGo_length (p1 p2 : List (Option Nat)) :
    ∀ n i b, ((subtractionColsGo p1 p2 n i b).1).length = n := by
  intro n
  induction n with
  | zero => intro i b; rfl
  | succ k ih => intro i b; simp [subtractionColsGo, ih]

theorem subtractionColsGo_chain (p1 p2 : List (Option Nat)) :
    ∀ n i b, subChainFrom b (subtractionColsGo p1 p2 n i b).1 = true := by
  intro n
  induction n with
  | zero => intro i b; rfl
  | succ k ih => intro i b; simp [subtractionColsGo, subChainFrom, ih]

theorem subtractionColsGo_column_eq (p1 p2 : List (Option Nat)) :
    ∀ n i b, ∀ col ∈ (subtractionColsGo p1 p2 n i b).1,
      (col.needsBorrow = true ↔ (col.op1Digit : Int) - col.borrowIn < col.op2Digit) ∧
      col.resultDigit =
        (if col.needsBorrow then (col.op1Digit : Int) - col.borrowIn + 10
         else (col.op1Digit : Int) - col.borrowIn) - col.op2Digit := by
  intro n
  induction n with
  | zero => intro i b col h; simp [subtractionColsGo] at h
  | succ k ih =>
      intro i b col h
      simp only [subtractionColsGo, List.mem_cons] at h
      rcases h with h | h
      · subst h
        refine ⟨by simp, by simp⟩
      · exact ih (i + 1) _ col h

theorem subtractionColsGo_range (p1 p2 : List (Option Nat))
    (h1 : ∀ j, digitAt p1 j ≤ 9) (h2 : ∀ j, digitAt p2 j ≤ 9) :
    ∀ n i b, b ≤ 1 → ∀ col ∈ (subtractionColsGo p1 p2 n i b).1,
      0 ≤ col.resultDigit ∧ col.resultDigit ≤ 9 := by
  intro n
  induction n with
  | zero => intro i b _ col h; simp [subtractionColsGo] at h
  | succ k ih =>
      intro i b hb col h
      simp only [subtractionColsGo, List.mem_cons] at h
      rcases h with h | h
      · subst h
        have hd1 := h1 i
        have hd2 := h2 i
        simp only [decide_eq_true_eq]
        constructor
        · split <;> omega
        · split <;> omega
      · refine ih (i + 1) _ ?_ col h
        split <;> omega

theorem subtractionColsGo_finalBorrow_le_one (p1 p2 : List (Option Nat)) :
    ∀ n i b, b ≤ 1 → (subtractionColsGo p1 p2 n i b).2 ≤ 1 := by
  intro n
  induction n with
  | zero => intro i b hb; exact hb
  | succ k ih =>
      intro i b hb
      simp only [subtractionColsGo]
      refine ih (i + 1) _ ?_
      split <;> omega

theorem subtractionColsGo_value (p1 p2 : List (Option Nat)) :
    ∀ n i b,
      fromIntDigits (((subtractionColsGo p1 p2 n i b).1).map SubtractionColumnCalc.resultDigit)
      = (optVal p1 i n : Int) - b - optVal p2 i n
        + 10 ^ n * (subtractionColsGo p1 p2 n i b).2 := by
  intro n
  induction n with
  | zero => intro i b; simp [subtractionColsGo, optVal, fromIntDigits]
  | succ k ih =>
      intro i b
      simp only [subtractionColsGo, List.map_cons, fromIntDigits, optVal, pow_succ]
      rw [ih (i + 1) _]
      push_cast
      split <;> ring

theorem subtractionColsGo_last_borrow (p1 p2 : List (Option Nat)) :
    ∀ n i b, 0 < n →
      (((subtractionColsGo p1 p2 n i b).1).getLast?).map
          (fun col => if col.needsBorrow then 1 else 0)
        = some (subtractionColsGo p1 p2 n i b).2 := by
  intro n
  induction n with
  | zero => intro i b h; omega
  | succ k ih =>
      intro i b _
      cases k with
      | zero => simp [subtractionColsGo]
      | succ m =>
          have h := ih (i + 1)
            (if (digitAt p1 i : Int) - b < (digitAt p2 i : Int) then 1 else 0)
            (Nat.succ_pos m)
          simp only [subtractionColsGo] at h ⊢
          rw [List.getLast?_cons_cons]
          simpa using h

theorem fromIntDigits_bounds (l : List Int) (h : ∀ d ∈ l, 0 ≤ d ∧ d ≤ 9) :
    0 ≤ fromIntDigits l ∧ fromIntDigits l ≤ 10 ^ l.length - 1 := by
  induction l with
  | nil => simp [fromIntDigits]
  | cons d t ih =>
      have hd := h d (List.mem_cons_self d t)
      have ht := ih (fun x hx => h x (List.mem_cons_of_mem d hx))
      simp only [fromIntDigits, List.length_cons, pow_succ]
      omega

theorem maxDigits_op1_le (p : MathProblem) :
    (getDigits p.operand1).length ≤ maxDigits p := le_max_left _ _

theorem maxDigits_op2_le (p : MathProblem) :
    (getDigits p.operand2).length ≤ maxDigits p :=
  le_trans (le_max_left _ _) (le_max_right _ _)

theorem maxDigits_answer_le (p : MathProblem) :
    (getDigits p.answer).length ≤ maxDigits p :=
  le_trans (le_max_right _ _) (le_max_right _ _)

theorem maxDigits_pos (p : MathProblem) : 0 < maxDigits p :=
  lt_of_lt_of_le (getDigits_length_pos p.operand1) (maxDigits_op1_le p)

theorem optVal_paddedOp1 (p : MathProblem) :
    optVal (paddedOp1 p) 0 (maxDigits p) = p.operand1 := by
  rw [paddedOp1, optVal_eq_fromDigits _ _ _ (maxDigits_op1_le p), fromDigits_getDigits]

theorem optVal_paddedOp2 (p : MathProblem) :
    optVal (paddedOp2 p) 0 (maxDigits p) = p.operand2 := by
  rw [paddedOp2, optVal_eq_fromDigits _ _ _ (maxDigits_op2_le p), fromDigits_getDigits]

/-- C1: for an addition problem with `answer = operand1 + operand2`, every
column of the decomposition satisfies
`op1Digit + op2Digit + carryIn = 10*carryOut + resultDigit` with
`resultDigit ≤ 9`, the carries chain starting from 0, the last column's
`carryOut` is 0, and the result digits reconstructed ones-first equal
`operand1 + operand2`. -/
theorem addition_decomposition_correct (p : MathProblem)
    (hop : p.operation = Operation.addition)
    (hans : p.answer = p.operand1 + p.operand2) :
    (∀ col ∈ additionColumns p,
        col.op1Digit + col.op2Digit + col.carryIn = 10 * col.carryOut + col.resultDigit ∧
        col.resultDigit ≤ 9) ∧
    addChainFrom 0 (additionColumns p) = true ∧
    (∀ col, (additionColumns p).getLast? = some col → col.carryOut = 0) ∧
    fromDigits ((additionColumns p).map ColumnCalc.resultDigit) = p.operand1 + p.operand2 := by
  have hval : fromDigits ((additionColumns p).map ColumnCalc.resultDigit)
      + 10 ^ maxDigits p * additionFinalCarry p
      = optVal (paddedOp1 p) 0 (maxDigits p) + optVal (paddedOp2 p) 0 (maxDigits p) + 0 :=
    additionColsGo_value _ _ _ _ _
  rw [optVal_paddedOp1, optVal_paddedOp2, Nat.add_zero] at hval
  have hlt : p.operand1 + p.operand2 < 10 ^ maxDigits p := by
    calc p.operand1 + p.operand2 = p.answer := hans.symm
      _ < 10 ^ (getDigits p.answer).length := lt_ten_pow_length_getDigits _
      _ ≤ 10 ^ maxDigits p := Nat.pow_le_pow_right (by norm_num) (maxDigits_answer_le p)
  have hfc : additionFinalCarry p = 0 := by
    rcases Nat.eq_zero_or_pos (additionFinalCarry p) with h0 | hpos
    · exact h0
    · exfalso
      have hmul : 10 ^ maxDigits p * 1 ≤ 10 ^ maxDigits p * additionFinalCarry p :=
        Nat.mul_le_mul_left _ hpos
      rw [Nat.mul_one] at hmul
      linarith [hval, hlt, hmul]
  refine ⟨additionColsGo_column_eq _ _ _ _ _, additionColsGo_chain _ _ _ _ _, ?_, ?_⟩
  · intro col hcol
    have hlast := additionColsGo_last_carry (paddedOp1 p) (paddedOp2 p) (maxDigits p) 0 0
      (maxDigits_pos p)
    have hlast2 : ((additionColumns p).getLast?).map ColumnCalc.carryOut
        = some (additionFinalCarry p) := hlast
    rw [hcol, hfc] at hlast2
    simpa using hlast2
  · rw [hfc, Nat.mul_zero, Nat.add_zero] at hval
    exact hval

/-- C1 witness: the decomposition of `7 + 5 = 12` reconstructs to 12. -/
theorem addition_decomposition_correct_witness :
    fromDigits ((additionColumns
      { id := "p", operand1 := 7, operand2 := 5, operation := Operation.addition,
        answer := 12, requiresCarry := true }).map ColumnCalc.resultDigit) = 7 + 5 :=
  (addition_decomposition_correct _ rfl rfl).2.2.2

/-- C2: for a subtraction problem with `operand1 ≥ operand2` and
`answer = operand1 - operand2`, every column satisfies
`needsBorrow ↔ op1Digit - borrowIn < op2Digit` and the stated
`resultDigit` formula with `resultDigit ∈ [0,9]`, the borrows chain from
0, the borrow out of the last column is 0, and the result digits
reconstructed ones-first equal `operand1 - operand2`. -/
theorem subtraction_decomposition_correct (p : MathProblem)
    (hop : p.operation = Operation.subtraction)
    (hle : p.operand2 ≤ p.operand1)
    (hans : p.answer = p.operand1 - p.operand2) :
    (∀ col ∈ subtractionColumns p,
        (col.needsBorrow = true ↔ (col.op1Digit : Int) - col.borrowIn < col.op2Digit) ∧
        col.resultDigit =
          (if col.needsBorrow then (col.op1Digit : Int) - col.borrowIn + 10
           else (col.op1Digit : Int) - col.borrowIn) - col.op2Digit ∧
        0 ≤ col.resultDigit ∧ col.resultDigit ≤ 9) ∧
    subChainFrom 0 (subtractionColumns p) = true ∧
    (∀ col, (subtractionColumns p).getLast? = some col → col.needsBorrow = false) ∧
    fromIntDigits ((subtractionColumns p).map SubtractionColumnCalc.resultDigit)
      = (p.operand1 : Int) - p.operand2 := by
  have hd1 : ∀ j, digitAt (paddedOp1 p) j ≤ 9 := fun j => digitAt_padDigits_le_nine _ _ j
  have hd2 : ∀ j, digitAt (paddedOp2 p) j ≤ 9 := fun j => digitAt_padDigits_le_nine _ _ j
  have hval : fromIntDigits ((subtractionColumns p).map SubtractionColumnCalc.resultDigit)
      = (optVal (paddedOp1 p) 0 (maxDigits p) : Int) - 0 - optVal (paddedOp2 p) 0 (maxDigits p)
        + 10 ^ maxDigits p * subtractionFinalBorrow p :=
    subtractionColsGo_value _ _ _ _ _
  rw [optVal_paddedOp1, optVal_paddedOp2] at hval
  have hrange := subtractionColsGo_range (paddedOp1 p) (paddedOp2 p) hd1 hd2
    (maxDigits p) 0 0 (by omega)
  have hbounds := fromIntDigits_bounds
    ((subtractionColumns p).map SubtractionColumnCalc.resultDigit)
    (by
      intro d hd
      rcases List.mem_map.mp hd with ⟨col, hcol, hdc⟩
      subst hdc
      exact hrange col hcol)
  have hlen : ((subtractionColumns p).map SubtractionColumnCalc.resultDigit).length
      = maxDigits p := by
    rw [List.length_map]
    exact subtractionColsGo_length _ _ _ _ _
  rw [hlen] at hbounds
  have hfb : subtractionFinalBorrow p ≤ 1 :=
    subtractionColsGo_finalBorrow_le_one _ _ _ _ _ (by omega)
  have hfb0 : subtractionFinalBorrow p = 0 := by
    rcases Nat.le_one_iff_eq_zero_or_eq_one.mp hfb with h0 | h1
    · exact h0
    · exfalso
      rw [h1] at hval
      have hcast : ((p.operand2 : Int)) ≤ (p.operand1 : Int) := by exact_mod_cast hle
      have hpow : (0:Int) < 10 ^ maxDigits p := pow_pos (by norm_num) _
      omega
  refine ⟨?_, subtractionColsGo_chain _ _ _ _ _, ?_, ?_⟩
  · intro col hcol
    have h1 := subtractionColsGo_column_eq (paddedOp1 p) (paddedOp2 p) (maxDigits p) 0 0 col hcol
    exact ⟨h1.1, h1.2, hrange col hcol⟩
  · intro col hcol
    have hlast := subtractionColsGo_last_borrow (paddedOp1 p) (paddedOp2 p) (maxDigits p) 0 0
      (maxDigits_pos p)
    have hlast2 : ((subtractionColumns p).getLast?).map
        (fun col => if col.needsBorrow then 1 else 0)
        = some (subtractionFinalBorrow p) := hlast
    rw [hcol, hfb0] at hlast2
    by_contra hb
    rw [Bool.not_eq_false] at hb
    rw [Option.map_some'] at hlast2
    rw [hb] at hlast2
    simp at hlast2
  · rw [hval, hfb0]
    push_cast
    ring

/-- C2 witness: the decomposition of `12 - 5 = 7` reconstructs to 7. -/
theorem subtraction_decomposition_correct_witness :
    fromIntDigits ((subtractionColumns
      { id := "p", operand1 := 12, operand2 := 5, operation := Operation.subtraction,
        answer := 7, requiresCarry := true }).map SubtractionColumnCalc.resultDigit)
      = (12 : Int) - 5 :=
  (subtraction_decomposition_correct _ rfl (by norm_num) rfl).2.2.2

/-- Embedding of `getAdditionSpeechText` from `speech.ts`.  The `phase` parameter is a
string in the TS code; unknown phases fall to the default empty string. -/
def getAdditionSpeechText (phase placeName : String)
    (op1Digit op2Digit carryIn sum resultDigit carryOut : Nat) : String :=
  if phase = "highlight" then
    if carryIn > 0 then
      "Look at the " ++ placeName ++ " place. " ++ toString op1Digit ++ " and " ++
        toString op2Digit ++ ", plus " ++ toString carryIn ++ " carried over."
    else
      "Look at the " ++ placeName ++ " place. " ++ toString op1Digit ++ " and " ++
        toString op2Digit ++ "."
  else if phase = "calc" then
    if carryIn > 0 then
      let text := toString op1Digit ++ " plus " ++ toString op2Digit ++ " plus " ++
        toString carryIn ++ " equals " ++ toString sum ++ "."
      if carryOut > 0 then
        text ++ " " ++ toString sum ++ " is more than 9, so we carry!"
      else text
    else
      let text := toString op1Digit ++ " plus " ++ toString op2Digit ++ " equals " ++
        toString sum ++ "."
      if carryOut > 0 then
        text ++ " " ++ toString sum ++ " is more than 9, so we carry!"
      else text
  else if phase = "carry" then
    "Write " ++ toString resultDigit ++ " in the " ++ placeName ++ " place, and carry " ++
      toString carryOut ++ " to the next place."
  else if phase = "write" then
    if carryOut = 0 then
      "Write " ++ toString resultDigit ++ " in the " ++ placeName ++ " place."
    else ""
  else ""

/-- Embedding of `getSubtractionSpeechText` from `speech.ts`.  `effectiveOp1`,
`borrowedValue` and `resultDigit` are `Int` (JS numbers that can be
negative before a borrow resolves). -/
def getSubtractionSpeechText (phase placeName : String)
    (op1Digit op2Digit borrowIn : Nat) (needsBorrow : Bool)
    (borrowedValue resultDigit : Int) : String :=
  let effectiveOp1 : Int := (op1Digit : Int) - borrowIn
  if phase = "highlight" then
    if borrowIn > 0 then
      "Look at the " ++ placeName ++ " place. " ++ toString op1Digit ++ " minus " ++
        toString borrowIn ++ " gives us " ++ toString effectiveOp1 ++ ", and we subtract " ++
        toString op2Digit ++ "."
    else
      "Look at the " ++ placeName ++ " place. " ++ toString op1Digit ++ " minus " ++
        toString op2Digit ++ "."
  else if phase = "calc" then
    if needsBorrow then
      toString effectiveOp1 ++ " is less than " ++ toString op2Digit ++
        ", so we need to borrow! Borrow 10 to get " ++ toString borrowedValue ++ "."
    else
      toString effectiveOp1 ++ " minus " ++ toString op2Digit ++ " equals " ++
        toString resultDigit ++ "."
  else if phase = "carry" then
    toString borrowedValue ++ " minus " ++ toString op2Digit ++ " equals " ++
      toString resultDigit ++ "."
  else if phase = "write" then
    "Write " ++ toString resultDigit ++ " in the " ++ placeName ++ " place."
  else ""

/-- Embedding of `getCompletionSpeech` from `speech.ts`; the correct-answer variant is
chosen by a `Math.random()` draw `r`. -/
def getCompletionSpeech (isCorrect : Bool) (answer : Nat) (r : ℚ) : String :=
  if isCorrect then
    let celebrations := ["Correct! Great job!", "Yes! You got it right!",
      "Excellent work!", "Perfect! Well done!"]
    celebrations.getD ((⌊r * (celebrations.length : ℚ)⌋).toNat) ""
  else
    "The answer is " ++ toString answer ++ ". Keep trying!"

/-- Settlement of a JS promise. -/
inductive PromiseResult (α : Type) where
  | resolved (v : α)
  | rejected
  | pending
deriving DecidableEq

/-- State of the `SpeechManager` singleton relevant to `speak`: whether
`window.speechSynthesis` exists (`this.synth !== null`) and the
`enabled` flag. -/
structure SpeechEnv where
  synthAvailable : Bool
  enabled : Bool
deriving DecidableEq

/-- Behaviour of a queued utterance: its `onend`/`onerror` event fires
after `elapsed` milliseconds, or no completion event ever fires. -/
inductive SpeechOutcome where
  | fires (elapsed : ℚ)
  | neverFires
deriving DecidableEq

/-- Embedding of `SpeechManager.speak` from `speech.ts` as a function from the manager
state and the utterance's behaviour to the promise settlement.  With no
synthesizer or speech disabled it resolves immediately with the estimate
`(text.length / 15) * 1000 / rate`; otherwise it resolves with the
elapsed time when `onend` or `onerror` fires, and never settles if no
completion event fires.  The executor never calls `reject`. -/
def SpeechManager.speak (env : SpeechEnv) (text : String) (rate : ℚ)
    (outcome : SpeechOutcome) : PromiseResult ℚ :=
  if !env.synthAvailable || !env.enabled then
    PromiseResult.resolved (((text.length : ℚ) / 15) * 1000 / rate)
  else
    match outcome with
    | SpeechOutcome.fires elapsed => PromiseResult.resolved elapsed
    | SpeechOutcome.neverFires => PromiseResult.pending

/-- Wall-clock milliseconds spent awaiting the `speak` promise: the
estimate branch settles immediately, the event branch settles when the
utterance's end/error event fires, and `none` if it never settles. -/
def speakAwaitTime (env : SpeechEnv) (outcome : SpeechOutcome) : Option ℚ :=
  if !env.synthAvailable || !env.enabled then some 0
  else
    match outcome with
    | SpeechOutcome.fires elapsed => some elapsed
    | SpeechOutcome.neverFires => none

/-- Embedding of `speakAndWait` from `Celebration.tsx` as total wall-clock time: with
narration on and non-empty text it awaits `speechManager.speak` and then
sleeps `max(minWait, speechDuration + 200) - speechDuration`; otherwise
it sleeps exactly `minWait`.  `none` means the awaited promise never
settles, so the phase never advances. -/
def speakAndWaitTime (speechEnabled : Bool) (env : SpeechEnv) (text : String)
    (rate : ℚ) (outcome : SpeechOutcome) (minWait : ℚ) : Option ℚ :=
  if speechEnabled && !(text == "") then
    match SpeechManager.speak env text rate outcome, speakAwaitTime env outcome with
    | PromiseResult.resolved speechDuration, some wall =>
        some (wall + (max minWait (speechDuration + 200) - speechDuration))
    | _, _ => none
  else
    some minWait

/-- Animation phase of the solve sequencer (`useState` in
`VerticalCalculation`). -/
inductive Phase where
  | highlight
  | calc
  | carry
  | write
deriving DecidableEq

/-- Embedding of `AnimationSpeed` from `types.ts`. -/
inductive AnimationSpeed where
  | slow
  | normal
  | fast
deriving DecidableEq

/-- Embedding of `ANIMATION_SPEEDS` from `types.ts`: slow 1.5, normal 1, fast 0.5. -/
def ANIMATION_SPEEDS : AnimationSpeed → ℚ
  | AnimationSpeed.slow => 1.5
  | AnimationSpeed.normal => 1
  | AnimationSpeed.fast => 0.5

/-- Embedding of `getDuration` from `Celebration.tsx`. -/
def getDuration (base : ℚ) (speed : AnimationSpeed) : ℚ :=
  base * ANIMATION_SPEEDS speed

/-- Per-column data consumed by the `runAnimation` loop body: the digit
appended in the write phase (`column.resultDigit`), the
`hasCarryOrBorrow` test, and the four narration texts computed at the
top of the loop body. -/
structure ColDesc where
  resultDigit : Int
  hasCarryOrBorrow : Bool
  highlightText : String
  calcText : String
  carryText : String
  writeText : String
deriving DecidableEq

/-- Loop-body data for an addition column (`Celebration.tsx` lines
474-479 and 499-501). -/
def additionColDesc (c : ColumnCalc) : ColDesc :=
  { resultDigit := (c.resultDigit : Int)
    hasCarryOrBorrow := c.carryOut > 0
    highlightText := getAdditionSpeechText "highlight" c.placeName c.op1Digit c.op2Digit
      c.carryIn c.sum c.resultDigit c.carryOut
    calcText := getAdditionSpeechText "calc" c.placeName c.op1Digit c.op2Digit
      c.carryIn c.sum c.resultDigit c.carryOut
    carryText := getAdditionSpeechText "carry" c.placeName c.op1Digit c.op2Digit
      c.carryIn c.sum c.resultDigit c.carryOut
    writeText := getAdditionSpeechText "write" c.placeName c.op1Digit c.op2Digit
      c.carryIn c.sum c.resultDigit c.carryOut }

/-- Loop-body data for a subtraction column (`Celebration.tsx` lines
480-486 and 499-501). -/
def subtractionColDesc (c : SubtractionColumnCalc) : ColDesc :=
  { resultDigit := c.resultDigit
    hasCarryOrBorrow := c.needsBorrow
    highlightText := getSubtractionSpeechText "highlight" c.placeName c.op1Digit c.op2Digit
      c.borrowIn c.needsBorrow c.borrowedValue c.resultDigit
    calcText := getSubtractionSpeechText "calc" c.placeName c.op1Digit c.op2Digit
      c.borrowIn c.needsBorrow c.borrowedValue c.resultDigit
    carryText := getSubtractionSpeechText "carry" c.placeName c.op1Digit c.op2Digit
      c.borrowIn c.needsBorrow c.borrowedValue c.resultDigit
    writeText := getSubtractionSpeechText "write" c.placeName c.op1Digit c.op2Digit
      c.borrowIn c.needsBorrow c.borrowedValue c.resultDigit }

/-- The decomposed columns of a problem as loop-body data, ones first. -/
def colDescs (p : MathProblem) : List ColDesc :=
  match p.operation with
  | Operation.addition => (additionColumns p).map additionColDesc
  | Operation.subtraction => (subtractionColumns p).map subtractionColDesc

/-- Observable actions of one `runAnimation` run, in program order:
state mutations (`setCurrentColumn`, `setPhase`, `setWrittenDigits`
append, `setIsDone`), awaited delays (`sleep`), awaited
`speakAndWait` calls, the `speechManager.stop()` call, and the
`onComplete` callback. -/
inductive SeqEvent where
  | speechStop
  | setColumn (col : Nat)
  | setPhase (ph : Phase)
  | appendDigit (d : Int)
  | setDone
  | speakWait (text : String) (minWait : ℚ)
  | sleep (minWait : ℚ)
  | complete
deriving DecidableEq

/-- Body of the `for col` loop of `runAnimation` for column `i`:
highlight (dwell `base`), calc (dwell `base * 1.5`), the conditional
carry phase (dwell `base * 1.2`), then the write phase, which appends
the result digit synchronously before its dwell (`base * 0.8`; a bare
timer when `writeText` is empty). -/
def columnEvents (base : ℚ) (i : Nat) (c : ColDesc) : List SeqEvent :=
  [SeqEvent.setColumn i, SeqEvent.setPhase Phase.highlight,
   SeqEvent.speakWait c.highlightText base,
   SeqEvent.setPhase Phase.calc, SeqEvent.speakWait c.calcText (base * 1.5)]
  ++ (if c.hasCarryOrBorrow then
        [SeqEvent.setPhase Phase.carry, SeqEvent.speakWait c.carryText (base * 1.2)]
      else [])
  ++ [SeqEvent.setPhase Phase.write, SeqEvent.appendDigit c.resultDigit]
  ++ (if c.writeText == "" then [SeqEvent.sleep (base * 0.8)]
      else [SeqEvent.speakWait c.writeText (base * 0.8)])

/-- The `for col` loop of `runAnimation` over the remaining columns. -/
def runColumns (base : ℚ) : Nat → List ColDesc → List SeqEvent
  | _, [] => []
  | i, c :: rest => columnEvents base i c ++ runColumns base (i + 1) rest

/-- The full uncancelled `runAnimation` trace: stop any previous speech,
initial delay, the per-column loop, then `setIsDone(true)`, the
completion narration, and the one-shot `onComplete`.  `r` is the
`Math.random()` draw of `getCompletionSpeech`. -/
def runEvents (p : MathProblem) (speed : AnimationSpeed) (isCorrect : Bool)
    (r : ℚ) : List SeqEvent :=
  [SeqEvent.speechStop, SeqEvent.sleep (getDuration 600 speed)]
  ++ runColumns (getDuration 600 speed) 0 (colDescs p)
  ++ [SeqEvent.setDone,
      SeqEvent.speakWait (getCompletionSpeech isCorrect p.answer r) (getDuration 600 speed),
      SeqEvent.complete]

/-- The sequencer's React state. -/
structure SeqState where
  currentColumn : Int
  phase : Phase
  isDone : Bool
  writtenDigits : List Int
deriving DecidableEq

/-- The reset state: `currentColumn = -1`, `phase = highlight`,
`isDone = false`, `writtenDigits = []`. -/
def initialSeqState : SeqState :=
  { currentColumn := -1, phase := Phase.highlight, isDone := false, writtenDigits := [] }

/-- Effect of one run event on the sequencer state; awaits, the speech
stop, and `onComplete` do not mutate it. -/
def stepEvent (s : SeqState) : SeqEvent → SeqState
  | SeqEvent.setColumn c => { s with currentColumn := (c : Int) }
  | SeqEvent.setPhase ph => { s with phase := ph }
  | SeqEvent.appendDigit d => { s with writtenDigits := s.writtenDigits ++ [d] }
  | SeqEvent.setDone => { s with isDone := true }
  | _ => s

/-- The sequencer state after performing a list of events. -/
def runState (s : SeqState) (events : List SeqEvent) : SeqState :=
  events.foldl stepEvent s

/-- Events at which `runAnimation` suspends (`await`): only there the
`cancelled` flag is observed. -/
def isAwait : SeqEvent → Bool
  | SeqEvent.speakWait _ _ => true
  | SeqEvent.sleep _ => true
  | _ => false

/-- The events a run cancelled at its `k`-th await point (0-based) has
performed: everything up to and including that await.  The code checks
`if (cancelled) return` right after each await, so the synchronous
segment before each await always runs whole. -/
def prefixToAwait : List SeqEvent → Nat → List SeqEvent
  | [], _ => []
  | e :: rest, k =>
    if isAwait e then
      match k with
      | 0 => [e]
      | k' + 1 => e :: prefixToAwait rest k'
    else e :: prefixToAwait rest k

/-- A run cancelled at its `k`-th await, followed by the effect cleanup
(`cancelled = true; speechManager.stop()`). -/
def cancelledRunEvents (p : MathProblem) (speed : AnimationSpeed) (isCorrect : Bool)
    (r : ℚ) (k : Nat) : List SeqEvent :=
  prefixToAwait (runEvents p speed isCorrect r) k ++ [SeqEvent.speechStop]

theorem runState_append (s : SeqState) (l1 l2 : List SeqEvent) :
    runState s (l1 ++ l2) = runState (runState s l1) l2 :=
  List.foldl_append stepEvent s l1 l2

theorem stepEvent_writtenDigits (s : SeqState) (e : SeqEvent) :
    ∃ t, (stepEvent s e).writtenDigits = s.writtenDigits ++ t := by
  cases e <;> simp [stepEvent]

theorem stepEvent_isDone (s : SeqState) (e : SeqEvent) (h : e ≠ SeqEvent.setDone) :
    (stepEvent s e).isDone = s.isDone := by
  cases e <;> simp_all [stepEvent]

theorem stepEvent_currentColumn (s : SeqState) (e : SeqEvent)
    (h : ∀ c, e ≠ SeqEvent.setColumn c) :
    (stepEvent s e).currentColumn = s.currentColumn := by
  cases e <;> simp_all [stepEvent]

theorem runState_isDone_of_no_setDone (l : List SeqEvent) :
    ∀ s, SeqEvent.setDone ∉ l → (runState s l).isDone = s.isDone := by
  induction l with
  | nil => intro s _; rfl
  | cons e rest ih =>
      intro s h
      rw [List.mem_cons, not_or] at h
      have : runState s (e :: rest) = runState (stepEvent s e) rest := rfl
      rw [this, ih _ h.2, stepEvent_isDone s e (fun he => (h.1 he.symm).elim)]

theorem runState_written_of_no_append (l : List SeqEvent) :
    ∀ s, (∀ d, SeqEvent.appendDigit d ∉ l) →
      (runState s l).writtenDigits = s.writtenDigits := by
  induction l with
  | nil => intro s _; rfl
  | cons e rest ih =>
      intro s h
      have hrest : ∀ d, SeqEvent.appendDigit d ∉ rest := by
        intro d hd
        exact h d (List.mem_cons_of_mem e hd)
      have hstep : (stepEvent s e).writtenDigits = s.writtenDigits := by
        cases e <;> simp [stepEvent]
        rename_i d
        exact absurd (List.mem_cons_self _ _) (h d)
      have : runState s (e :: rest) = runState (stepEvent s e) rest := rfl
      rw [this, ih _ hrest, hstep]

theorem runState_take_written_mono (l : List SeqEvent) :
    ∀ s k, ∃ t, (runState s (l.take (k + 1))).writtenDigits
      = (runState s (l.take k)).writtenDigits ++ t := by
  induction l with
  | nil => intro s k; exact ⟨[], by simp⟩
  | cons e rest ih =>
      intro s k
      cases k with
      | zero =>
          simp only [List.take_zero, List.take_succ_cons]
          have : runState s [e] = stepEvent s e := rfl
          rw [this]
          exact stepEvent_writtenDigits s e
      | succ k' =>
          simp only [List.take_succ_cons]
          exact ih (stepEvent s e) k'

theorem runState_columnEvents (base : ℚ) (i : Nat) (c : ColDesc) (s : SeqState) :
    runState s (columnEvents base i c) =
      { currentColumn := (i : Int), phase := Phase.write, isDone := s.isDone,
        writtenDigits := s.writtenDigits ++ [c.resultDigit] } := by
  cases hc : c.hasCarryOrBorrow <;> cases hw : c.writeText == "" <;>
    simp [columnEvents, hc, hw, runState, stepEvent]

theorem runState_runColumns_written (base : ℚ) :
    ∀ (descs : List ColDesc) (i : Nat) (s : SeqState),
      (runState s (runColumns base i descs)).writtenDigits
        = s.writtenDigits ++ descs.map ColDesc.resultDigit := by
  intro descs
  induction descs with
  | nil => intro i s; simp [runColumns, runState]
  | cons c rest ih =>
      intro i s
      rw [runColumns, runState_append, runState_columnEvents, ih]
      simp

theorem runState_runColumns_isDone (base : ℚ) :
    ∀ (descs : List ColDesc) (i : Nat) (s : SeqState),
      (runState s (runColumns base i descs)).isDone = s.isDone := by
  intro descs
  induction descs with
  | nil => intro i s; rfl
  | cons c rest ih =>
      intro i s
      rw [runColumns, runState_append, runState_columnEvents, ih]

theorem setDone_not_mem_columnEvents (base : ℚ) (i : Nat) (c : ColDesc) :
    SeqEvent.setDone ∉ columnEvents base i c := by
  cases hc : c.hasCarryOrBorrow <;> cases hw : c.writeText == "" <;>
    simp [columnEvents, hc, hw]

theorem setDone_not_mem_runColumns (base : ℚ) :
    ∀ (descs : List ColDesc) (i : Nat), SeqEvent.setDone ∉ runColumns base i descs := by
  intro descs
  induction descs with
  | nil => intro i; simp [runColumns]
  | cons c rest ih =>
      intro i
      rw [runColumns]
      intro h
      rcases List.mem_append.mp h with h | h
      · exact setDone_not_mem_columnEvents base i c h
      · exact ih (i + 1) h

/-- Every `setColumn` in the list sets a column at least the current
bound, and later `setColumn`s never go back down. -/
def colsMonoB (bound : Int) : List SeqEvent → Bool
  | [] => true
  | SeqEvent.setColumn c :: rest => decide (bound ≤ (c : Int)) && colsMonoB (c : Int) rest
  | SeqEvent.speechStop :: rest => colsMonoB bound rest
  | SeqEvent.setPhase _ :: rest => colsMonoB bound rest
  | SeqEvent.appendDigit _ :: rest => colsMonoB bound rest
  | SeqEvent.setDone :: rest => colsMonoB bound rest
  | SeqEvent.speakWait _ _ :: rest => colsMonoB bound rest
  | SeqEvent.sleep _ :: rest => colsMonoB bound rest
  | SeqEvent.complete :: rest => colsMonoB bound rest

theorem colsMonoB_step (l : List SeqEvent) :
    ∀ (s : SeqState), colsMonoB s.currentColumn l = true →
      ∀ k, (runState s (l.take k)).currentColumn
        ≤ (runState s (l.take (k + 1))).currentColumn := by
  induction l with
  | nil => intro s _ k; simp [runState]
  | cons e rest ih =>
      intro s hmono k
      have hnext : colsMonoB (stepEvent s e).currentColumn rest = true ∧
          s.currentColumn ≤ (stepEvent s e).currentColumn := by
        cases e <;> simp_all [colsMonoB, stepEvent]
      cases k with
      | zero =>
          simp only [List.take_zero, List.take_succ_cons]
          have h1 : runState s ([] : List SeqEvent) = s := rfl
          have h2 : runState s [e] = stepEvent s e := rfl
          rw [h1, h2]
          exact hnext.2
      | succ k' =>
          simp only [List.take_succ_cons]
          exact ih (stepEvent s e) hnext.1 k'

theorem colsMonoB_columnEvents (base : ℚ) (i : Nat) (c : ColDesc) (b : Int)
    (hb : b ≤ (i : Int)) (rest : List SeqEvent) :
    colsMonoB b (columnEvents base i c ++ rest) = colsMonoB (i : Int) rest := by
  cases hc : c.hasCarryOrBorrow <;> cases hw : c.writeText == "" <;>
    simp [columnEvents, hc, hw, colsMonoB, hb]

theorem colsMonoB_runColumns (base : ℚ) :
    ∀ (descs : List ColDesc) (i : Nat) (b : Int), b ≤ (i : Int) →
      ∀ l2, (∀ b2, colsMonoB b2 l2 = true) →
        colsMonoB b (runColumns base i descs ++ l2) = true := by
  intro descs
  induction descs with
  | nil => intro i b _ l2 h2; simp [runColumns]; exact h2 b
  | cons c rest ih =>
      intro i b hb l2 h2
      rw [runColumns, List.append_assoc, colsMonoB_columnEvents base i c b hb]
      exact ih (i + 1) (i : Int) (by exact_mod_cast Nat.le_succ i) l2 h2

theorem colsMonoB_runEvents (p : MathProblem) (speed : AnimationSpeed)
    (isCorrect : Bool) (r : ℚ) :
    colsMonoB (-1) (runEvents p speed isCorrect r) = true := by
  rw [runEvents]
  have htail : ∀ b2, colsMonoB b2
      [SeqEvent.setDone,
       SeqEvent.speakWait (getCompletionSpeech isCorrect p.answer r) (getDuration 600 speed),
       SeqEvent.complete] = true := by
    intro b2; rfl
  have h := colsMonoB_runColumns (getDuration 600 speed) (colDescs p) 0 (-1) (by norm_num)
    _ htail
  simpa [colsMonoB] using h

/-- Every `setPhase write` is immediately followed by an `appendDigit`,
and every `appendDigit` is immediately preceded by a `setPhase write`:
the digit is appended synchronously at write-phase entry, before any
narration or delay. -/
def writeAppendOk : List SeqEvent → Bool
  | [] => true
  | SeqEvent.setPhase Phase.write :: SeqEvent.appendDigit _ :: rest => writeAppendOk rest
  | SeqEvent.setPhase Phase.write :: _ => false
  | SeqEvent.appendDigit _ :: _ => false
  | _ :: rest => writeAppendOk rest

theorem writeAppendOk_columnEvents (base : ℚ) (i : Nat) (c : ColDesc)
    (rest : List SeqEvent) :
    writeAppendOk (columnEvents base i c ++ rest) = writeAppendOk rest := by
  cases hc : c.hasCarryOrBorrow <;> cases hw : c.writeText == "" <;>
    simp [columnEvents, hc, hw, writeAppendOk]

theorem writeAppendOk_runColumns (base : ℚ) :
    ∀ (descs : List ColDesc) (i : Nat) (rest : List SeqEvent),
      writeAppendOk (runColumns base i descs ++ rest) = writeAppendOk rest := by
  intro descs
  induction descs with
  | nil => intro i rest; simp [runColumns]
  | cons c t ih =>
      intro i rest
      rw [runColumns, List.append_assoc, writeAppendOk_columnEvents]
      exact ih (i + 1) rest

theorem writeAppendOk_runEvents (p : MathProblem) (speed : AnimationSpeed)
    (isCorrect : Bool) (r : ℚ) :
    writeAppendOk (runEvents p speed isCorrect r) = true := by
  rw [runEvents, List.append_assoc]
  have h1 : writeAppendOk
      ([SeqEvent.speechStop, SeqEvent.sleep (getDuration 600 speed)]
        ++ (runColumns (getDuration 600 speed) 0 (colDescs p)
          ++ [SeqEvent.setDone,
              SeqEvent.speakWait (getCompletionSpeech isCorrect p.answer r)
                (getDuration 600 speed),
              SeqEvent.complete]))
      = writeAppendOk (runColumns (getDuration 600 speed) 0 (colDescs p)
          ++ [SeqEvent.setDone,
              SeqEvent.speakWait (getCompletionSpeech isCorrect p.answer r)
                (getDuration 600 speed),
              SeqEvent.complete]) := by
    simp [writeAppendOk]
  rw [h1, writeAppendOk_runColumns]
  rfl

theorem colDescs_length (p : MathProblem) : (colDescs p).length = maxDigits p := by
  unfold colDescs
  cases p.operation <;>
    simp [additionColumns, subtractionColumns, additionColsGo_length, subtractionColsGo_length]

/-- After `[speechStop, sleep]` and the whole column loop, all result
digits have been written. -/
theorem runState_preEvents_written (p : MathProblem) (speed : AnimationSpeed) :
    (runState initialSeqState
      ([SeqEvent.speechStop, SeqEvent.sleep (getDuration 600 speed)]
        ++ runColumns (getDuration 600 speed) 0 (colDescs p))).writtenDigits
      = (colDescs p).map ColDesc.resultDigit := by
  have hs : runState initialSeqState
      [SeqEvent.speechStop, SeqEvent.sleep (getDuration 600 speed)] = initialSeqState := rfl
  rw [runState_append, hs, runState_runColumns_written]
  rfl

/-- The `isDone` flag is still false after the column loop. -/
theorem runState_preEvents_isDone (p : MathProblem) (speed : AnimationSpeed) :
    (runState initialSeqState
      ([SeqEvent.speechStop, SeqEvent.sleep (getDuration 600 speed)]
        ++ runColumns (getDuration 600 speed) 0 (colDescs p))).isDone = false := by
  have hs : runState initialSeqState
      [SeqEvent.speechStop, SeqEvent.sleep (getDuration 600 speed)] = initialSeqState := rfl
  rw [runState_append, hs, runState_runColumns_isDone]
  rfl

theorem setDone_not_mem_pre (p : MathProblem) (speed : AnimationSpeed) :
    SeqEvent.setDone ∉
      ([SeqEvent.speechStop, SeqEvent.sleep (getDuration 600 speed)]
        ++ runColumns (getDuration 600 speed) 0 (colDescs p)) := by
  intro h
  rcases List.mem_append.mp h with h | h
  · simp at h
  · exact setDone_not_mem_runColumns _ _ _ h

theorem runEvents_eq_pre_append (p : MathProblem) (speed : AnimationSpeed)
    (isCorrect : Bool) (r : ℚ) :
    runEvents p speed isCorrect r =
      ([SeqEvent.speechStop, SeqEvent.sleep (getDuration 600 speed)]
        ++ runColumns (getDuration 600 speed) 0 (colDescs p))
      ++ [SeqEvent.setDone,
          SeqEvent.speakWait (getCompletionSpeech isCorrect p.answer r) (getDuration 600 speed),
          SeqEvent.complete] := by
  rw [runEvents, List.append_assoc]

theorem runEvents_isDone_take (p : MathProblem) (speed : AnimationSpeed)
    (isCorrect : Bool) (r : ℚ) (k : Nat)
    (h : (runState initialSeqState ((runEvents p speed isCorrect r).take k)).isDone = true) :
    (runState initialSeqState ((runEvents p speed isCorrect r).take k)).writtenDigits
      = (colDescs p).map ColDesc.resultDigit := by
  rcases le_or_lt k
      ([SeqEvent.speechStop, SeqEvent.sleep (getDuration 600 speed)]
        ++ runColumns (getDuration 600 speed) 0 (colDescs p)).length with hk | hk
  · exfalso
    have htake : (runEvents p speed isCorrect r).take k
        = ([SeqEvent.speechStop, SeqEvent.sleep (getDuration 600 speed)]
            ++ runColumns (getDuration 600 speed) 0 (colDescs p)).take k := by
      rw [runEvents_eq_pre_append, List.take_append_eq_append_take]
      have hz : k - ([SeqEvent.speechStop, SeqEvent.sleep (getDuration 600 speed)]
          ++ runColumns (getDuration 600 speed) 0 (colDescs p)).length = 0 := by omega
      rw [hz]
      simp
    rw [htake] at h
    have hnd : SeqEvent.setDone ∉
        ([SeqEvent.speechStop, SeqEvent.sleep (getDuration 600 speed)]
          ++ runColumns (getDuration 600 speed) 0 (colDescs p)).take k := by
      intro hmem
      exact setDone_not_mem_pre p speed (List.take_subset k _ hmem)
    rw [runState_isDone_of_no_setDone _ _ hnd] at h
    simp [initialSeqState] at h
  · have htake : (runEvents p speed isCorrect r).take k
        = ([SeqEvent.speechStop, SeqEvent.sleep (getDuration 600 speed)]
            ++ runColumns (getDuration 600 speed) 0 (colDescs p))
          ++ ([SeqEvent.setDone,
              SeqEvent.speakWait (getCompletionSpeech isCorrect p.answer r)
                (getDuration 600 speed),
              SeqEvent.complete].take
                (k - ([SeqEvent.speechStop, SeqEvent.sleep (getDuration 600 speed)]
                  ++ runColumns (getDuration 600 speed) 0 (colDescs p)).length)) := by
      rw [runEvents_eq_pre_append, List.take_append_eq_append_take,
        List.take_of_length_le (by omega)]
    rw [htake, runState_append]
    have hnoapp : ∀ d, SeqEvent.appendDigit d ∉
        ([SeqEvent.setDone,
          SeqEvent.speakWait (getCompletionSpeech isCorrect p.answer r) (getDuration 600 speed),
          SeqEvent.complete].take
            (k - ([SeqEvent.speechStop, SeqEvent.sleep (getDuration 600 speed)]
              ++ runColumns (getDuration 600 speed) 0 (colDescs p)).length)) := by
      intro d hd
      have := List.take_subset _ _ hd
      simp at this
    rw [runState_written_of_no_append _ _ hnoapp]
    exact runState_preEvents_written p speed

theorem runState_runEvents_final (p : MathProblem) (speed : AnimationSpeed)
    (isCorrect : Bool) (r : ℚ) :
    (runState initialSeqState (runEvents p speed isCorrect r)).isDone = true ∧
    (runState initialSeqState (runEvents p speed isCorrect r)).writtenDigits
      = (colDescs p).map ColDesc.resultDigit := by
  rw [runEvents_eq_pre_append, runState_append]
  constructor
  · simp [runState, stepEvent]
  · have hnoapp : ∀ d, SeqEvent.appendDigit d ∉
        [SeqEvent.setDone,
         SeqEvent.speakWait (getCompletionSpeech isCorrect p.answer r) (getDuration 600 speed),
         SeqEvent.complete] := by
      intro d hd
      simp at hd
    rw [runState_written_of_no_append _ _ hnoapp]
    exact runState_preEvents_written p speed

/-- C3: along every run of the solve sequencer, `currentColumn` never
decreases and `writtenDigits` only grows; each column's result digit is
appended exactly at write-phase entry, immediately after `setPhase write`
and before any narration or delay; whenever `isDone` is true the
accumulator already equals the decomposed columns' result digits in
ones-to-highest order, one entry per column (`maxDigits` entries); and
the completed run ends with `isDone = true`. -/
theorem sequencer_written_digits (p : MathProblem) (speed : AnimationSpeed)
    (isCorrect : Bool) (r : ℚ) :
    (∀ k, (runState initialSeqState ((runEvents p speed isCorrect r).take k)).currentColumn
        ≤ (runState initialSeqState ((runEvents p speed isCorrect r).take (k + 1))).currentColumn) ∧
    (∀ k, ∃ t, (runState initialSeqState ((runEvents p speed isCorrect r).take (k + 1))).writtenDigits
        = (runState initialSeqState ((runEvents p speed isCorrect r).take k)).writtenDigits ++ t) ∧
    writeAppendOk (runEvents p speed isCorrect r) = true ∧
    (∀ k, (runState initialSeqState ((runEvents p speed isCorrect r).take k)).isDone = true →
      (runState initialSeqState ((runEvents p speed isCorrect r).take k)).writtenDigits
        = (colDescs p).map ColDesc.resultDigit) ∧
    ((colDescs p).map ColDesc.resultDigit).length = maxDigits p ∧
    (runState initialSeqState (runEvents p speed isCorrect r)).isDone = true ∧
    (runState initialSeqState (runEvents p speed isCorrect r)).writtenDigits
      = (colDescs p).map ColDesc.resultDigit := by
  refine ⟨?_, ?_, writeAppendOk_runEvents p speed isCorrect r,
    runEvents_isDone_take p speed isCorrect r,
    by rw [List.length_map]; exact colDescs_length p,
    (runState_runEvents_final p speed isCorrect r).1,
    (runState_runEvents_final p speed isCorrect r).2⟩
  · exact colsMonoB_step _ initialSeqState (colsMonoB_runEvents p speed isCorrect r)
  · intro k
    exact runState_take_written_mono _ initialSeqState k

theorem carry_not_mem_runColumns (base : ℚ) :
    ∀ (descs : List ColDesc) (i : Nat), (∀ cd ∈ descs, cd.hasCarryOrBorrow = false) →
      SeqEvent.setPhase Phase.carry ∉ runColumns base i descs := by
  intro descs
  induction descs with
  | nil => intro i _; simp [runColumns]
  | cons c rest ih =>
      intro i hall
      rw [runColumns]
      intro h
      rcases List.mem_append.mp h with h | h
      · have hc : c.hasCarryOrBorrow = false := hall c (List.mem_cons_self _ _)
        revert h
        cases hw : c.writeText == "" <;> simp [columnEvents, hc, hw]
      · exact ih (i + 1) (fun cd hcd => hall cd (List.mem_cons_of_mem _ hcd)) h

/-- C4: the carry phase for a column is entered iff that column's
`hasCarryOrBorrow` holds — for addition columns that flag is exactly
`carryOut > 0`, for subtraction columns exactly `needsBorrow`; otherwise
the run goes directly from the calc dwell to `setPhase write`, and a
problem whose decomposition has no carries or borrows never enters the
carry phase. -/
theorem carry_phase_condition (base : ℚ) (i : Nat) (c : ColDesc)
    (p : MathProblem) (speed : AnimationSpeed) (isCorrect : Bool) (r : ℚ) :
    ((SeqEvent.setPhase Phase.carry ∈ columnEvents base i c) ↔ c.hasCarryOrBorrow = true) ∧
    (∀ cc : ColumnCalc, (additionColDesc cc).hasCarryOrBorrow = decide (cc.carryOut > 0)) ∧
    (∀ sc : SubtractionColumnCalc, (subtractionColDesc sc).hasCarryOrBorrow = sc.needsBorrow) ∧
    (c.hasCarryOrBorrow = false →
      columnEvents base i c =
        [SeqEvent.setColumn i, SeqEvent.setPhase Phase.highlight,
         SeqEvent.speakWait c.highlightText base,
         SeqEvent.setPhase Phase.calc, SeqEvent.speakWait c.calcText (base * 1.5),
         SeqEvent.setPhase Phase.write, SeqEvent.appendDigit c.resultDigit]
        ++ (if c.writeText == "" then [SeqEvent.sleep (base * 0.8)]
            else [SeqEvent.speakWait c.writeText (base * 0.8)])) ∧
    ((∀ cd ∈ colDescs p, cd.hasCarryOrBorrow = false) →
      SeqEvent.setPhase Phase.carry ∉ runEvents p speed isCorrect r) := by
  refine ⟨?_, fun cc => rfl, fun sc => rfl, ?_, ?_⟩
  · cases hc : c.hasCarryOrBorrow <;> cases hw : c.writeText == "" <;>
      simp [columnEvents, hc, hw]
  · intro hc
    cases hw : c.writeText == "" <;> simp [columnEvents, hc, hw]
  · intro hall h
    rw [runEvents_eq_pre_append] at h
    rcases List.mem_append.mp h with h | h
    · rcases List.mem_append.mp h with h | h
      · simp at h
      · exact carry_not_mem_runColumns _ _ _ hall h
    · simp at h

/-- C4 witness: for the no-carry problem `2 + 3 = 5` the carry phase is
never entered. -/
theorem carry_phase_condition_witness :
    SeqEvent.setPhase Phase.carry ∉ runEvents
      { id := "p", operand1 := 2, operand2 := 3, operation := Operation.addition,
        answer := 5, requiresCarry := false }
      AnimationSpeed.normal true 0 :=
  (carry_phase_condition 600 0 (additionColDesc ⟨0, "ones", 2, 3, 0, 5, 5, 0⟩)
      ⟨"p", 2, 3, Operation.addition, 5, false⟩
      AnimationSpeed.normal true 0).2.2.2.2 (by decide)

theorem complete_not_mem_columnEvents (base : ℚ) (i : Nat) (c : ColDesc) :
    SeqEvent.complete ∉ columnEvents base i c := by
  cases hc : c.hasCarryOrBorrow <;> cases hw : c.writeText == "" <;>
    simp [columnEvents, hc, hw]

theorem complete_not_mem_runColumns (base : ℚ) :
    ∀ (descs : List ColDesc) (i : Nat), SeqEvent.complete ∉ runColumns base i descs := by
  intro descs
  induction descs with
  | nil => intro i; simp [runColumns]
  | cons c rest ih =>
      intro i
      rw [runColumns]
      intro h
      rcases List.mem_append.mp h with h | h
      · exact complete_not_mem_columnEvents base i c h
      · exact ih (i + 1) h

theorem noComplete_cons (e : SeqEvent) (l : List SeqEvent) (he : e ≠ SeqEvent.complete)
    (hl : ∀ k, k < l.countP (fun x => isAwait x) → SeqEvent.complete ∉ prefixToAwait l k) :
    ∀ k, k < (e :: l).countP (fun x => isAwait x) →
      SeqEvent.complete ∉ prefixToAwait (e :: l) k := by
  intro k hk
  rw [List.countP_cons] at hk
  by_cases ha : isAwait e = true
  · rw [ha] at hk
    simp only [if_true] at hk
    cases k with
    | zero =>
        rw [prefixToAwait, if_pos ha]
        intro hmem
        rcases List.mem_singleton.mp hmem with h
        exact he h.symm
    | succ k' =>
        rw [prefixToAwait, if_pos ha]
        intro hmem
        rcases List.mem_cons.mp hmem with h | h
        · exact he h.symm
        · exact hl k' (by omega) h
  · have hk' : k < l.countP (fun x => isAwait x) := by
      rw [eq_false_of_ne_true ha] at hk
      simpa using hk
    have hstep : prefixToAwait (e :: l) k = e :: prefixToAwait l k := by
      cases k <;> rw [prefixToAwait] <;> rw [if_neg ha]
    rw [hstep]
    intro hmem
    rcases List.mem_cons.mp hmem with h | h
    · exact he h.symm
    · exact hl k hk' h

theorem noComplete_append (l1 : List SeqEvent) :
    ∀ (l2 : List SeqEvent), SeqEvent.complete ∉ l1 →
      (∀ k, k < l2.countP (fun x => isAwait x) → SeqEvent.complete ∉ prefixToAwait l2 k) →
      ∀ k, k < (l1 ++ l2).countP (fun x => isAwait x) →
        SeqEvent.complete ∉ prefixToAwait (l1 ++ l2) k := by
  induction l1 with
  | nil => intro l2 _ h2 k hk; exact h2 k (by simpa using hk) ∘ (by simpa using id)
  | cons e t ih =>
      intro l2 h1 h2 k hk
      have he : e ≠ SeqEvent.complete := fun h => h1 (h ▸ List.mem_cons_self _ _)
      have ht : SeqEvent.complete ∉ t := fun h => h1 (List.mem_cons_of_mem _ h)
      have hcons := noComplete_cons e (t ++ l2) he (ih l2 ht h2)
      exact hcons k hk

theorem noComplete_tail (txt : String) (w : ℚ) :
    ∀ k, k < ([SeqEvent.setDone, SeqEvent.speakWait txt w,
        SeqEvent.complete].countP (fun x => isAwait x)) →
      SeqEvent.complete ∉ prefixToAwait
        [SeqEvent.setDone, SeqEvent.speakWait txt w, SeqEvent.complete] k := by
  intro k hk
  have hc : ([SeqEvent.setDone, SeqEvent.speakWait txt w,
      SeqEvent.complete].countP (fun x => isAwait x)) = 1 := by
    simp [List.countP_cons, isAwait]
  rw [hc] at hk
  have hk0 : k = 0 := by omega
  subst hk0
  simp [prefixToAwait, isAwait]

theorem complete_not_mem_pre (p : MathProblem) (speed : AnimationSpeed) :
    SeqEvent.complete ∉
      ([SeqEvent.speechStop, SeqEvent.sleep (getDuration 600 speed)]
        ++ runColumns (getDuration 600 speed) 0 (colDescs p)) := by
  intro h
  rcases List.mem_append.mp h with h | h
  · simp at h
  · exact complete_not_mem_runColumns _ _ _ h

/-- C8: a run cancelled at any of its await points never reaches
`onComplete` (its event record contains no `complete`), and the cleanup's
`speechManager.stop()` is its final action; the uncancelled run fires
`onComplete` exactly once, as the very last event after the completion
announcement that follows the last column's write phase. -/
theorem cancellation_semantics (p : MathProblem) (speed : AnimationSpeed)
    (isCorrect : Bool) (r : ℚ) :
    (∀ k, k < (runEvents p speed isCorrect r).countP (fun x => isAwait x) →
      SeqEvent.complete ∉ cancelledRunEvents p speed isCorrect r k) ∧
    (∀ k, (cancelledRunEvents p speed isCorrect r k).getLast? = some SeqEvent.speechStop) ∧
    (runEvents p speed isCorrect r).count SeqEvent.complete = 1 ∧
    runEvents p speed isCorrect r =
      ([SeqEvent.speechStop, SeqEvent.sleep (getDuration 600 speed)]
        ++ runColumns (getDuration 600 speed) 0 (colDescs p))
      ++ [SeqEvent.setDone,
          SeqEvent.speakWait (getCompletionSpeech isCorrect p.answer r) (getDuration 600 speed),
          SeqEvent.complete] := by
  refine ⟨?_, ?_, ?_, runEvents_eq_pre_append p speed isCorrect r⟩
  · intro k hk
    rw [cancelledRunEvents]
    intro hmem
    rcases List.mem_append.mp hmem with h | h
    · rw [runEvents_eq_pre_append] at hk h
      exact noComplete_append _ _ (complete_not_mem_pre p speed)
        (noComplete_tail _ _) k hk h
    · simp at h
  · intro k
    rw [cancelledRunEvents]
    exact List.getLast?_concat _
  · rw [runEvents_eq_pre_append, List.count_append]
    have h1 : (([SeqEvent.speechStop, SeqEvent.sleep (getDuration 600 speed)]
        ++ runColumns (getDuration 600 speed) 0 (colDescs p)).count SeqEvent.complete) = 0 :=
      List.count_eq_zero.mpr (complete_not_mem_pre p speed)
    rw [h1]
    simp [List.count_cons]

/-- C8 witness: cancelling the run for `2 + 3` at its first await
(the initial delay) yields no `onComplete`. -/
theorem cancellation_semantics_witness :
    SeqEvent.complete ∉ cancelledRunEvents
      { id := "p", operand1 := 2, operand2 := 3, operation := Operation.addition,
        answer := 5, requiresCarry := false }
      AnimationSpeed.normal false 0 0 :=
  (cancellation_semantics
      { id := "p", operand1 := 2, operand2 := 3, operation := Operation.addition,
        answer := 5, requiresCarry := false }
      AnimationSpeed.normal false 0).1 0 (by decide)

theorem getAdditionSpeechText_write (placeName : String) (a b ci s rd co : Nat) :
    getAdditionSpeechText "write" placeName a b ci s rd co
      = if co = 0 then "Write " ++ toString rd ++ " in the " ++ placeName ++ " place."
        else "" := by
  rw [getAdditionSpeechText, if_neg (by decide), if_neg (by decide), if_neg (by decide),
    if_pos rfl]

theorem getSubtractionSpeechText_write (placeName : String) (a b bi : Nat)
    (nb : Bool) (bv rd : Int) :
    getSubtractionSpeechText "write" placeName a b bi nb bv rd
      = "Write " ++ toString rd ++ " in the " ++ placeName ++ " place." := by
  rw [getSubtractionSpeechText]
  rw [if_neg (by decide), if_neg (by decide), if_neg (by decide), if_pos rfl]

theorem write_string_ne_empty (a b : String) :
    "Write " ++ a ++ " in the " ++ b ++ " place." ≠ "" := by
  intro h
  have hlen := congrArg String.length h
  rw [String.length_append, String.length_append, String.length_append,
    String.length_append] at hlen
  have h6 : "Write ".length = 6 := by decide
  have h0 : "".length = 0 := by decide
  omega

/-- C6: the addition write-phase narration is
`Write {resultDigit} in the {placeName} place.` iff the column has no
carry out, and the empty string when it carries (the combined message was
already spoken in the carry phase, and an empty text takes the
timer-only branch, triggering no speech); the subtraction write-phase
narration is always that non-empty sentence. -/
theorem write_phase_narration (placeName : String)
    (op1 op2 carryIn sum resultDigit carryOut : Nat)
    (sop1 sop2 sborrowIn : Nat) (needsBorrow : Bool) (borrowedValue srd : Int)
    (speechEnabled : Bool) (env : SpeechEnv) (rate minWait : ℚ) (outcome : SpeechOutcome) :
    (getAdditionSpeechText "write" placeName op1 op2 carryIn sum resultDigit carryOut
        = "Write " ++ toString resultDigit ++ " in the " ++ placeName ++ " place."
      ↔ carryOut = 0) ∧
    (0 < carryOut →
      getAdditionSpeechText "write" placeName op1 op2 carryIn sum resultDigit carryOut = "") ∧
    getSubtractionSpeechText "write" placeName sop1 sop2 sborrowIn needsBorrow borrowedValue srd
      = "Write " ++ toString srd ++ " in the " ++ placeName ++ " place." ∧
    getSubtractionSpeechText "write" placeName sop1 sop2 sborrowIn needsBorrow borrowedValue srd
      ≠ "" ∧
    speakAndWaitTime speechEnabled env "" rate outcome minWait = some minWait := by
  refine ⟨?_, ?_, getSubtractionSpeechText_write _ _ _ _ _ _ _, ?_, ?_⟩
  · rw [getAdditionSpeechText_write]
    constructor
    · intro h
      by_contra hco
      rw [if_neg hco] at h
      exact write_string_ne_empty (toString resultDigit) placeName h.symm
    · intro h
      rw [if_pos h]
  · intro h
    rw [getAdditionSpeechText_write, if_neg (by omega)]
  · rw [getSubtractionSpeechText_write]
    exact write_string_ne_empty (toString srd) placeName
  · rw [speakAndWaitTime]
    simp

/-- C6 witness: for the carrying ones column of `7 + 5` the write-phase
text is empty, and the subtraction write text for result digit 7 is the
full sentence. -/
theorem write_phase_narration_witness :
    getAdditionSpeechText "write" "ones" 7 5 0 12 2 1 = "" ∧
    getSubtractionSpeechText "write" "ones" 2 5 0 true 12 7
      = "Write " ++ toString (7 : Int) ++ " in the " ++ "ones" ++ " place." :=
  ⟨(write_phase_narration "ones" 7 5 0 12 2 1 2 5 0 true 12 7 true
      { synthAvailable := true, enabled := true } 1 600 SpeechOutcome.neverFires).2.1
      (by decide),
   (write_phase_narration "ones" 7 5 0 12 2 1 2 5 0 true 12 7 true
      { synthAvailable := true, enabled := true } 1 600 SpeechOutcome.neverFires).2.2.1⟩

/-- C10: `speechManager.speak` never rejects: with synthesis unavailable
or speech disabled it resolves immediately with the estimate
`(text.length / 15) * 1000 / rate`, and when the utterance's end or
error event fires it resolves with the elapsed milliseconds — a
synthesis error is swallowed into resolution, never thrown. -/
theorem speak_never_rejects (env : SpeechEnv) (text : String) (rate : ℚ)
    (outcome : SpeechOutcome) :
    SpeechManager.speak env text rate outcome ≠ PromiseResult.rejected ∧
    (env.synthAvailable = false ∨ env.enabled = false →
      SpeechManager.speak env text rate outcome
        = PromiseResult.resolved (((text.length : ℚ) / 15) * 1000 / rate)) ∧
    (∀ elapsed, outcome = SpeechOutcome.fires elapsed →
      SpeechManager.speak env text rate outcome ≠ PromiseResult.pending) ∧
    (∀ elapsed, outcome = SpeechOutcome.fires elapsed →
      env.synthAvailable = true → env.enabled = true →
      SpeechManager.speak env text rate outcome = PromiseResult.resolved elapsed) := by
  rcases env with ⟨sa, en⟩
  refine ⟨?_, ?_, ?_, ?_⟩
  · cases sa <;> cases en <;> cases outcome <;> simp [SpeechManager.speak]
  · intro h
    rcases h with h | h <;> subst h <;> cases outcome <;> simp [SpeechManager.speak] <;>
      cases sa <;> cases en <;> simp [SpeechManager.speak]
  · intro elapsed h
    subst h
    cases sa <;> cases en <;> simp [SpeechManager.speak]
  · intro elapsed h hsa hen
    subst h
    subst hsa
    subst hen
    simp [SpeechManager.speak]

/-- C10 witness: with no synthesizer, `speak` resolves with the
estimate; with a firing utterance it resolves with the elapsed time. -/
theorem speak_never_rejects_witness :
    SpeechManager.speak { synthAvailable := false, enabled := true } "Hi" 1
        SpeechOutcome.neverFires
      = PromiseResult.resolved (((("Hi".length : ℚ)) / 15) * 1000 / 1) ∧
    SpeechManager.speak { synthAvailable := true, enabled := true } "Hi" 1
        (SpeechOutcome.fires 500)
      = PromiseResult.resolved 500 :=
  ⟨(speak_never_rejects { synthAvailable := false, enabled := true } "Hi" 1
      SpeechOutcome.neverFires).2.1 (Or.inl rfl),
   (speak_never_rejects { synthAvailable := true, enabled := true } "Hi" 1
      (SpeechOutcome.fires 500)).2.2.2 500 rfl rfl rfl⟩

/-- The per-phase dwell factors the spec states: highlight 1x, calc 1.5x,
carry 1.2x, write 0.8x. -/
def specPhaseFactor : Phase → ℚ
  | Phase.highlight => 1
  | Phase.calc => 1.5
  | Phase.carry => 1.2
  | Phase.write => 0.8

theorem fires_total (env : SpeechEnv) (text : String) (rate minWait e : ℚ)
    (ht : text ≠ "") (hsa : env.synthAvailable = true) (hen : env.enabled = true) :
    speakAndWaitTime true env text rate (SpeechOutcome.fires e) minWait
      = some (max minWait (e + 200)) := by
  have htb : (text == "") = false := by
    rw [beq_eq_false_iff_ne]
    exact ht
  simp only [speakAndWaitTime, SpeechManager.speak, speakAwaitTime, hsa, hen, htb,
    Bool.not_true, Bool.or_self, Bool.and_true, Bool.not_false, if_false]
  norm_num

theorem unavailable_total (env : SpeechEnv) (text : String) (rate minWait : ℚ)
    (outcome : SpeechOutcome)
    (ht : text ≠ "") (hsa : env.synthAvailable = false) :
    speakAndWaitTime true env text rate outcome minWait
      = some (max minWait (((text.length : ℚ) / 15) * 1000 / rate + 200)
          - ((text.length : ℚ) / 15) * 1000 / rate) := by
  have htb : (text == "") = false := by
    rw [beq_eq_false_iff_ne]
    exact ht
  simp only [speakAndWaitTime, SpeechManager.speak, speakAwaitTime, hsa, htb,
    Bool.not_false, Bool.not_true, Bool.true_or, Bool.and_true, if_true]
  norm_num

/-- C5 (amended): every phase dwell in a column is the 600ms base scaled
by the speed multiplier and the phase factor; `fast` halves the nominal
dwell of `normal`; with narration off or empty text the phase advances
after exactly the nominal duration; when the utterance's end/error event
fires, the total wait is `max(nominal, speechDuration + 200)`, never
below nominal.  With narration on but synthesis unavailable the promise
resolves instantly with the estimate, and the wait is
`max(nominal, estimate + 200) - estimate`, which can undercut the
nominal duration. -/
theorem dwell_contract (speed : AnimationSpeed) (i : Nat) (c : ColDesc)
    (sEnabled : Bool) (env : SpeechEnv) (text : String) (rate minWait e : ℚ)
    (outcome : SpeechOutcome) :
    (columnEvents (getDuration 600 speed) i c =
      [SeqEvent.setColumn i, SeqEvent.setPhase Phase.highlight,
       SeqEvent.speakWait c.highlightText
         (600 * ANIMATION_SPEEDS speed * specPhaseFactor Phase.highlight),
       SeqEvent.setPhase Phase.calc,
       SeqEvent.speakWait c.calcText
         (600 * ANIMATION_SPEEDS speed * specPhaseFactor Phase.calc)]
      ++ (if c.hasCarryOrBorrow then
            [SeqEvent.setPhase Phase.carry,
             SeqEvent.speakWait c.carryText
               (600 * ANIMATION_SPEEDS speed * specPhaseFactor Phase.carry)]
          else [])
      ++ [SeqEvent.setPhase Phase.write, SeqEvent.appendDigit c.resultDigit]
      ++ (if c.writeText == "" then
            [SeqEvent.sleep (600 * ANIMATION_SPEEDS speed * specPhaseFactor Phase.write)]
          else
            [SeqEvent.speakWait c.writeText
              (600 * ANIMATION_SPEEDS speed * specPhaseFactor Phase.write)])) ∧
    getDuration 600 AnimationSpeed.fast = getDuration 600 AnimationSpeed.normal / 2 ∧
    (sEnabled = false ∨ text = "" →
      speakAndWaitTime sEnabled env text rate outcome minWait = some minWait) ∧
    (sEnabled = true → text ≠ "" → env.synthAvailable = true → env.enabled = true →
      outcome = SpeechOutcome.fires e →
      speakAndWaitTime sEnabled env text rate outcome minWait
        = some (max minWait (e + 200)) ∧
      minWait ≤ max minWait (e + 200)) ∧
    (sEnabled = true → text ≠ "" → env.synthAvailable = false →
      speakAndWaitTime sEnabled env text rate outcome minWait
        = some (max minWait (((text.length : ℚ) / 15) * 1000 / rate + 200)
            - ((text.length : ℚ) / 15) * 1000 / rate)) := by
  refine ⟨?_, by norm_num [getDuration, ANIMATION_SPEEDS], ?_, ?_, ?_⟩
  · cases speed <;>
      norm_num [columnEvents, getDuration, ANIMATION_SPEEDS, specPhaseFactor]
  · intro h
    rcases h with h | h <;> subst h <;> simp [speakAndWaitTime]
  · intro hs ht hsa hen ho
    subst hs; subst ho
    exact ⟨fires_total env text rate minWait e ht hsa hen, le_max_left _ _⟩
  · intro hs ht hsa
    subst hs
    exact unavailable_total env text rate minWait outcome ht hsa

/-- C5 witness: a firing 1000ms utterance with nominal 600 waits
`max(600, 1200) = 1200` in total. -/
theorem dwell_contract_witness :
    speakAndWaitTime true { synthAvailable := true, enabled := true } "Hi" 1
        (SpeechOutcome.fires 1000) 600
      = some (max 600 (1000 + 200)) :=
  ((dwell_contract AnimationSpeed.normal 0
      { resultDigit := 0, hasCarryOrBorrow := false, highlightText := "",
        calcText := "", carryText := "", writeText := "" }
      true { synthAvailable := true, enabled := true } "Hi" 1 600 1000
      (SpeechOutcome.fires 1000)).2.2.2.1 rfl (by decide) rfl rfl rfl).1

/-- C5 counterexample: with narration enabled, non-empty text and
synthesis unavailable, the highlight phase of `7 + 5` advances after
200ms, below its 600ms nominal dwell — the claim's lower bound fails. -/
theorem dwell_contract_counterexample :
    speakAndWaitTime true { synthAvailable := false, enabled := true }
      (getAdditionSpeechText "highlight" "ones" 7 5 0 12 2 1) 1
      SpeechOutcome.neverFires 600 = some 200 ∧ (200 : ℚ) < 600 := by
  constructor
  · have ht : getAdditionSpeechText "highlight" "ones" 7 5 0 12 2 1 ≠ "" := by decide
    have hlen : (getAdditionSpeechText "highlight" "ones" 7 5 0 12 2 1).length = 32 := by
      decide
    rw [unavailable_total _ _ _ _ _ ht rfl, hlen]
    have hmax : max (600 : ℚ) (((32 : Nat) : ℚ) / 15 * 1000 / 1 + 200)
        = ((32 : Nat) : ℚ) / 15 * 1000 / 1 + 200 := by
      rw [max_eq_right]
      norm_num
    rw [hmax]
    norm_num
  · norm_num

/-- C7: with narration enabled and synthesis available, an utterance
that never fires its end or error event leaves `speakAndWait` awaiting a
promise that never settles: no timer fallback exists, so the phase never
advances. -/
theorem narration_never_fires_hangs :
    speakAndWaitTime true { synthAvailable := true, enabled := true }
      (getAdditionSpeechText "highlight" "ones" 7 5 0 12 2 1) 1
      SpeechOutcome.neverFires 600 = none := by
  have ht : (getAdditionSpeechText "highlight" "ones" 7 5 0 12 2 1 == "") = false := by
    decide
  simp [speakAndWaitTime, SpeechManager.speak, speakAwaitTime, ht]

/-- A stream of `Math.random()` draws: each value lies in `[0, 1)`. -/
def ValidStream (s : Nat → ℚ) : Prop :=
  ∀ n, 0 ≤ s n ∧ s n < 1

/-- Embedding of `getRandomInt` from `mathGenerator.ts`:
`Math.floor(Math.random() * (max - min + 1)) + min`, for one draw `r`. -/
def getRandomInt (r : ℚ) (min max : Nat) : Nat :=
  (⌊r * ((max : ℚ) - (min : ℚ) + 1)⌋).toNat + min

/-- Embedding of `checkRequiresCarry` from `mathGenerator.ts`. -/
def checkRequiresCarry (a b : Nat) (operation : Operation) : Bool :=
  match operation with
  | Operation.addition => a % 10 + b % 10 ≥ 10
  | Operation.subtraction => a % 10 < b % 10

/-- Embedding of `generateId` builds an opaque token from `Date.now()` and
`Math.random()`; its content is never inspected downstream, so it is
modelled as a function of the generation step. -/
def generateId (k : Nat) : String :=
  "problem-" ++ toString k

/-- Embedding of `generateAdditionProblem` from `mathGenerator.ts`: draws
`operand1 ∈ [0, maxNumber]`, then `operand2 ∈ [0, maxNumber - operand1]`;
uses the stream values at positions `k` and `k + 1`. -/
def generateAdditionProblem (maxNumber : Nat) (s : Nat → ℚ) (k : Nat) : MathProblem :=
  let operand1 := getRandomInt (s k) 0 maxNumber
  let maxOperand2 := maxNumber - operand1
  let operand2 := getRandomInt (s (k + 1)) 0 maxOperand2
  { id := generateId k
    operand1 := operand1
    operand2 := operand2
    operation := Operation.addition
    answer := operand1 + operand2
    requiresCarry := checkRequiresCarry operand1 operand2 Operation.addition }

/-- Embedding of `generateSubtractionProblem` from `mathGenerator.ts`: draws
`operand1 ∈ [0, maxNumber]`, then `operand2 ∈ [0, operand1]`. -/
def generateSubtractionProblem (maxNumber : Nat) (s : Nat → ℚ) (k : Nat) : MathProblem :=
  let operand1 := getRandomInt (s k) 0 maxNumber
  let operand2 := getRandomInt (s (k + 1)) 0 operand1
  { id := generateId k
    operand1 := operand1
    operand2 := operand2
    operation := Operation.subtraction
    answer := operand1 - operand2
    requiresCarry := checkRequiresCarry operand1 operand2 Operation.subtraction }

/-- Embedding of `QuizLevel` from `types.ts`. -/
inductive QuizLevel where
  | addSub10
  | addSub20
  | addSub100
  | addSub1000
  | mixed10
  | mixed20
  | mixed100
  | mixed1000
deriving DecidableEq

/-- Embedding of `LevelConfig` from `types.ts` (`color` and `icon` are string-literal
unions in TS, kept as strings). -/
structure LevelConfig where
  name : String
  description : String
  difficulty : Nat
  maxNumber : Nat
  operations : List Operation
  color : String
  icon : String

/-- Embedding of `LEVEL_CONFIGS` from `types.ts`. -/
def LEVEL_CONFIGS : QuizLevel → LevelConfig
  | QuizLevel.addSub10 =>
    { name := "Numbers to 10", description := "Addition & Subtraction within 10"
      difficulty := 1, maxNumber := 10
      operations := [Operation.addition, Operation.subtraction]
      color := "secondary", icon := "Star" }
  | QuizLevel.addSub20 =>
    { name := "Numbers to 20", description := "Addition & Subtraction within 20"
      difficulty := 2, maxNumber := 20
      operations := [Operation.addition, Operation.subtraction]
      color := "accent", icon := "Stars" }
  | QuizLevel.addSub100 =>
    { name := "Numbers to 100", description := "Addition & Subtraction within 100"
      difficulty := 2, maxNumber := 100
      operations := [Operation.addition, Operation.subtraction]
      color := "primary", icon := "Sparkles" }
  | QuizLevel.addSub1000 =>
    { name := "Numbers to 1000", description := "Addition & Subtraction within 1000"
      difficulty := 3, maxNumber := 1000
      operations := [Operation.addition, Operation.subtraction]
      color := "fun", icon := "Rocket" }
  | QuizLevel.mixed10 =>
    { name := "Mix it Up! (10)", description := "Mixed operations within 10"
      difficulty := 2, maxNumber := 10
      operations := [Operation.addition, Operation.subtraction]
      color := "primary", icon := "Shuffle" }
  | QuizLevel.mixed20 =>
    { name := "Mix it Up! (20)", description := "Mixed operations within 20"
      difficulty := 2, maxNumber := 20
      operations := [Operation.addition, Operation.subtraction]
      color := "accent", icon := "Shuffle" }
  | QuizLevel.mixed100 =>
    { name := "Mix it Up! (100)", description := "Mixed operations within 100"
      difficulty := 3, maxNumber := 100
      operations := [Operation.addition, Operation.subtraction]
      color := "fun", icon := "Zap" }
  | QuizLevel.mixed1000 =>
    { name := "Challenge Mode", description := "Mixed operations within 1000"
      difficulty := 3, maxNumber := 1000
      operations := [Operation.addition, Operation.subtraction]
      color := "fun", icon := "Trophy" }

/-- Embedding of `getRandomOperation` from `mathGenerator.ts`:
`operations[Math.floor(Math.random() * operations.length)]` (in-range
for the non-empty configured lists; the default is never reached). -/
def getRandomOperation (r : ℚ) (operations : List Operation) : Operation :=
  operations.getD ((⌊r * (operations.length : ℚ)⌋).toNat) Operation.addition

/-- Embedding of `generateProblem` from `mathGenerator.ts`: pick the operation with
one draw, then generate with the following draws. -/
def generateProblem (level : QuizLevel) (s : Nat → ℚ) (k : Nat) : MathProblem :=
  let config := LEVEL_CONFIGS level
  match getRandomOperation (s k) config.operations with
  | Operation.addition => generateAdditionProblem config.maxNumber s (k + 1)
  | Operation.subtraction => generateSubtractionProblem config.maxNumber s (k + 1)

/-- Embedding of `isDuplicateProblem` from `mathGenerator.ts`. -/
def isDuplicateProblem (a b : MathProblem) : Bool :=
  a.operand1 == b.operand1 && a.operand2 == b.operand2 && a.operation == b.operation

/-- The bounded `while` loop of `generateQuiz`: each attempt consumes
three stream draws; a candidate duplicating the last problem, or any of
the last three, is discarded.  Returns the accepted problems and the
next stream position. -/
def generateQuizGo (level : QuizLevel) (count : Nat) (s : Nat → ℚ) :
    Nat → Nat → List MathProblem → List MathProblem × Nat
  | 0, k, problems => (problems, k)
  | fuel + 1, k, problems =>
    if problems.length < count then
      let newProblem := generateProblem level s k
      let lastOk :=
        match problems.getLast? with
        | none => true
        | some lastProblem => !isDuplicateProblem newProblem lastProblem
      let problems' :=
        if lastOk then
          let recentProblems := problems.drop (problems.length - 3)
          if recentProblems.any (fun p => isDuplicateProblem p newProblem) then problems
          else problems ++ [newProblem]
        else problems
      generateQuizGo level count s fuel (k + 3) problems'
    else (problems, k)

/-- The trailing fill loop of `generateQuiz`: top up with unchecked
problems until `count` is reached. -/
def fillGo (level : QuizLevel) (s : Nat → ℚ) : Nat → Nat → List MathProblem
  | 0, _ => []
  | need + 1, k => generateProblem level s k :: fillGo level s need (k + 3)

/-- Embedding of `generateQuiz` from `mathGenerator.ts`: the bounded dedup loop with
`maxAttempts = count * 10`, then the fill loop. -/
def generateQuiz (level : QuizLevel) (count : Nat) (s : Nat → ℚ) : List MathProblem :=
  let res := generateQuizGo level count s (count * 10) 0 []
  res.1 ++ fillGo level s (count - res.1.length) res.2

theorem getRandomInt_le (r : ℚ) (hr0 : 0 ≤ r) (hr1 : r < 1) (hi : Nat) :
    getRandomInt r 0 hi ≤ hi := by
  rw [getRandomInt]
  simp only [Nat.cast_zero, sub_zero, add_zero]
  have hpos : (0:ℚ) < (hi : ℚ) + 1 := by positivity
  have hlt : r * ((hi : ℚ) + 1) < (hi : ℚ) + 1 := by
    calc r * ((hi : ℚ) + 1) < 1 * ((hi : ℚ) + 1) := mul_lt_mul_of_pos_right hr1 hpos
      _ = (hi : ℚ) + 1 := one_mul _
  have hfl : ⌊r * ((hi : ℚ) + 1)⌋ < (hi : Int) + 1 := by
    rw [Int.floor_lt]
    push_cast
    exact hlt
  have hle : ⌊r * ((hi : ℚ) + 1)⌋ ≤ (hi : Int) := by omega
  exact Int.toNat_le.mpr hle

theorem getRandomInt_zero (r : ℚ) (hr0 : 0 ≤ r) (hr1 : r < 1) :
    getRandomInt r 0 0 = 0 :=
  Nat.le_zero.mp (getRandomInt_le r hr0 hr1 0)

/-- The range/answer properties C9 requires of one generated problem. -/
def ProblemBounds (maxNumber : Nat) (p : MathProblem) : Prop :=
  p.operand1 ≤ maxNumber ∧ p.operand2 ≤ maxNumber ∧
  (p.operation = Operation.addition →
    p.answer = p.operand1 + p.operand2 ∧ p.answer ≤ maxNumber) ∧
  (p.operation = Operation.subtraction →
    p.operand2 ≤ p.operand1 ∧ p.answer = p.operand1 - p.operand2)

theorem generateAdditionProblem_bounds (maxNumber : Nat) (s : Nat → ℚ)
    (hs : ValidStream s) (k : Nat) :
    ProblemBounds maxNumber (generateAdditionProblem maxNumber s k) := by
  have h1 := getRandomInt_le (s k) (hs k).1 (hs k).2 maxNumber
  have h2 := getRandomInt_le (s (k + 1)) (hs (k + 1)).1 (hs (k + 1)).2
    (maxNumber - getRandomInt (s k) 0 maxNumber)
  refine ⟨?_, ?_, fun _ => ⟨rfl, ?_⟩,
    fun hcontra => by simp [generateAdditionProblem] at hcontra⟩ <;>
    simp only [generateAdditionProblem] <;> omega

theorem generateSubtractionProblem_bounds (maxNumber : Nat) (s : Nat → ℚ)
    (hs : ValidStream s) (k : Nat) :
    ProblemBounds maxNumber (generateSubtractionProblem maxNumber s k) := by
  have h1 := getRandomInt_le (s k) (hs k).1 (hs k).2 maxNumber
  have h2 := getRandomInt_le (s (k + 1)) (hs (k + 1)).1 (hs (k + 1)).2
    (getRandomInt (s k) 0 maxNumber)
  refine ⟨?_, ?_, fun hcontra => by simp [generateSubtractionProblem] at hcontra,
    fun _ => ⟨?_, rfl⟩⟩ <;>
    simp only [generateSubtractionProblem] <;> omega

theorem generateProblem_bounds (level : QuizLevel) (s : Nat → ℚ)
    (hs : ValidStream s) (k : Nat) :
    ProblemBounds (LEVEL_CONFIGS level).maxNumber (generateProblem level s k) := by
  rw [generateProblem]
  cases getRandomOperation (s k) (LEVEL_CONFIGS level).operations
  · exact generateAdditionProblem_bounds _ s hs (k + 1)
  · exact generateSubtractionProblem_bounds _ s hs (k + 1)

theorem generateQuizGo_mem (level : QuizLevel) (count : Nat) (s : Nat → ℚ)
    (hs : ValidStream s) :
    ∀ fuel k acc, (∀ q ∈ acc, ProblemBounds (LEVEL_CONFIGS level).maxNumber q) →
      ∀ q ∈ (generateQuizGo level count s fuel k acc).1,
        ProblemBounds (LEVEL_CONFIGS level).maxNumber q := by
  intro fuel
  induction fuel with
  | zero => intro k acc hacc; exact hacc
  | succ f ih =>
      intro k acc hacc
      rw [generateQuizGo]
      split
      · apply ih (k + 3)
        split
        · show ∀ q ∈ (if ((List.drop (acc.length - 3) acc).any
              (fun p => isDuplicateProblem p (generateProblem level s k))) = true
            then acc else acc ++ [generateProblem level s k]),
            ProblemBounds (LEVEL_CONFIGS level).maxNumber q
          split
          · exact hacc
          · intro q hq
            rcases List.mem_append.mp hq with h | h
            · exact hacc q h
            · rcases List.mem_singleton.mp h with h
              subst h
              exact generateProblem_bounds level s hs k
        · exact hacc
      · exact hacc

theorem generateQuizGo_length_le (level : QuizLevel) (count : Nat) (s : Nat → ℚ) :
    ∀ fuel k acc, acc.length ≤ count →
      ((generateQuizGo level count s fuel k acc).1).length ≤ count := by
  intro fuel
  induction fuel with
  | zero => intro k acc hacc; exact hacc
  | succ f ih =>
      intro k acc hacc
      rw [generateQuizGo]
      split
      · apply ih (k + 3)
        split
        · show (if ((List.drop (acc.length - 3) acc).any
              (fun p => isDuplicateProblem p (generateProblem level s k))) = true
            then acc else acc ++ [generateProblem level s k]).length ≤ count
          split
          · exact hacc
          · rw [List.length_append, List.length_singleton]
            omega
        · exact hacc
      · exact hacc

theorem fillGo_length (level : QuizLevel) (s : Nat → ℚ) :
    ∀ need k, (fillGo level s need k).length = need := by
  intro need
  induction need with
  | zero => intro k; rfl
  | succ n ih => intro k; simp [fillGo, ih]

theorem fillGo_mem (level : QuizLevel) (s : Nat → ℚ) (hs : ValidStream s) :
    ∀ need k, ∀ q ∈ fillGo level s need k,
      ProblemBounds (LEVEL_CONFIGS level).maxNumber q := by
  intro need
  induction need with
  | zero => intro k q hq; simp [fillGo] at hq
  | succ n ih =>
      intro k q hq
      rw [fillGo] at hq
      rcases List.mem_cons.mp hq with h | h
      · subst h
        exact generateProblem_bounds level s hs k
      · exact ih (k + 3) q h

theorem generateAdditionProblem_zero (s : Nat → ℚ) (hs : ValidStream s) (k : Nat) :
    generateAdditionProblem 0 s k =
      { id := generateId k, operand1 := 0, operand2 := 0,
        operation := Operation.addition, answer := 0, requiresCarry := false } := by
  have h1 : getRandomInt (s k) 0 0 = 0 := getRandomInt_zero (s k) (hs k).1 (hs k).2
  have h2 : getRandomInt (s (k + 1)) 0 0 = 0 :=
    getRandomInt_zero (s (k + 1)) (hs (k + 1)).1 (hs (k + 1)).2
  rw [generateAdditionProblem]
  simp only [Nat.zero_sub, h1, h2]
  rfl

theorem generateSubtractionProblem_zero (s : Nat → ℚ) (hs : ValidStream s) (k : Nat) :
    generateSubtractionProblem 0 s k =
      { id := generateId k, operand1 := 0, operand2 := 0,
        operation := Operation.subtraction, answer := 0, requiresCarry := false } := by
  have h1 : getRandomInt (s k) 0 0 = 0 := getRandomInt_zero (s k) (hs k).1 (hs k).2
  rw [generateSubtractionProblem]
  simp only [h1]
  have h2 : getRandomInt (s (k + 1)) 0 0 = 0 :=
    getRandomInt_zero (s (k + 1)) (hs (k + 1)).1 (hs (k + 1)).2
  simp only [h2]
  rfl

/-- C9: `generateQuiz(level, N)` returns exactly `N` problems for every
outcome of the random source; every operand lies in `[0, maxNumber]`,
every addition answer is the exact sum and stays within `maxNumber`, and
every subtraction has `operand1 ≥ operand2` with the exact non-negative
difference; with `maxNumber = 0` both generators produce only the
trivial `0 op 0` problem. -/
theorem generateQuiz_spec (level : QuizLevel) (count : Nat) (s : Nat → ℚ)
    (hs : ValidStream s) :
    (generateQuiz level count s).length = count ∧
    (∀ q ∈ generateQuiz level count s,
      ProblemBounds (LEVEL_CONFIGS level).maxNumber q) ∧
    (∀ k, generateAdditionProblem 0 s k =
      { id := generateId k, operand1 := 0, operand2 := 0,
        operation := Operation.addition, answer := 0, requiresCarry := false }) ∧
    (∀ k, generateSubtractionProblem 0 s k =
      { id := generateId k, operand1 := 0, operand2 := 0,
        operation := Operation.subtraction, answer := 0, requiresCarry := false }) := by
  have hlen := generateQuizGo_length_le level count s (count * 10) 0 [] (by simp)
  refine ⟨?_, ?_, generateAdditionProblem_zero s hs, generateSubtractionProblem_zero s hs⟩
  · rw [generateQuiz, List.length_append, fillGo_length]
    omega
  · intro q hq
    rw [generateQuiz] at hq
    rcases List.mem_append.mp hq with h | h
    · exact generateQuizGo_mem level count s hs (count * 10) 0 [] (by simp) q h
    · exact fillGo_mem level s hs _ _ q h

/-- C9 witness: with the all-zero random stream, a one-problem quiz for
the 10-level has exactly one problem. -/
theorem generateQuiz_spec_witness :
    (generateQuiz QuizLevel.addSub10 1 (fun _ => 0)).length = 1 :=
  (generateQuiz_spec QuizLevel.addSub10 1 (fun _ => 0)
    (fun n => ⟨le_refl 0, by norm_num⟩)).1

/-- C3 witness: the completed run for `7 + 5` has written exactly the
decomposed result digits. -/
theorem sequencer_written_digits_witness :
    (runState initialSeqState (runEvents
      { id := "p", operand1 := 7, operand2 := 5, operation := Operation.addition,
        answer := 12, requiresCarry := true }
      AnimationSpeed.normal false 0)).writtenDigits
      = (colDescs
          { id := "p", operand1 := 7, operand2 := 5, operation := Operation.addition,
            answer := 12, requiresCarry := true }).map ColDesc.resultDigit :=
  (sequencer_written_digits
      { id := "p", operand1 := 7, operand2 := 5, operation := Operation.addition,
        answer := 12, requiresCarry := true }
      AnimationSpeed.normal false 0).2.2.2.2.2.2
